import Mathlib

/-!
# fm3-flash: register-level model of `sample/common.c` and `sample/blink.c`

The sample code is a straight-line sequence of accesses to memory-mapped
registers, interrupted by busy-wait loops.  It is embedded here as functions on
an explicit machine state:

* `Machine.regs` is the register file: for every register the last value
  written to it;
* registers whose read value is produced by the hardware (`isStatus`) are read
  from a stream supplied by `Mcu.status`: the `n`-th read of register `r`
  returns `mcu.status r n`;
* `Machine.trace` records every volatile access, in program order.

A busy-wait loop may spin forever.  Every function containing one takes a
bound `fuel` on the number of iterations of each loop and returns an `Outcome`:
`returned m` when the C function returns, `spinning m` when some loop was still
spinning after `fuel` iterations (`m` is the machine at that point).
The C function returns on a given hardware iff some `fuel` gives `returned`.
-/

namespace Fm3

/-- Registers accessed by the sample code (fields of `FM3_HWWDT`, `FM3_CRTRIM`,
`FM3_CRG` and `FM3_GPIO` in `mcu.h`). -/
inductive Reg
  | WDG_LCK | WDG_CTL
  | MCR_RLR | MCR_PSR | MCR_FTRM
  | BSC_PSR | APBC0_PSR | APBC1_PSR | APBC2_PSR | SWC_PSR
  | PSW_TMR | PLL_CTL1 | PLL_CTL2 | SCM_CTL | SCM_STR
  | DDR5 | PDOR5
  deriving DecidableEq, Repr

/-- One volatile access: a read that returned `v`, or a write of `v`. -/
inductive Event
  | rd (r : Reg) (v : Nat)
  | wr (r : Reg) (v : Nat)
  deriving DecidableEq, Repr

/-- What the code takes from `mcu.h` and from the device: the positions of the
two bit-fields it names (`SCM_STR_f.PLRDY`, `PDOR5_f.P1`) and, for every
hardware-driven register, the stream of values its successive reads return. -/
structure Mcu where
  PLRDY : Nat
  P1 : Nat
  status : Reg → Nat → Nat

/-- Registers whose reads are answered by the hardware rather than by the last
value written: the watchdog lock status, the trim lock status and the clock
status register. -/
def isStatus : Reg → Bool
  | .WDG_LCK => true
  | .MCR_RLR => true
  | .SCM_STR => true
  | _ => false

/-- Machine state: register file (last value written), number of reads made of
each register so far, and the access trace in program order. -/
structure Machine where
  regs : Reg → Nat
  nreads : Reg → Nat
  trace : List Event

/-- Machine at entry: given register contents, nothing accessed yet. -/
def Machine.boot (regs : Reg → Nat) : Machine :=
  { regs := regs, nreads := fun _ => 0, trace := [] }

/-- Volatile store `REG = v`. -/
def Machine.write (r : Reg) (v : Nat) (m : Machine) : Machine :=
  { m with
    regs := fun x => if x = r then v else m.regs x
    trace := m.trace ++ [Event.wr r v] }

/-- Value returned by the next read of `r`. -/
def Machine.peek (mcu : Mcu) (r : Reg) (m : Machine) : Nat :=
  if isStatus r then mcu.status r (m.nreads r) else m.regs r

/-- Volatile load of `r`: the value read and the machine afterwards. -/
def Machine.read (mcu : Mcu) (r : Reg) (m : Machine) : Nat × Machine :=
  (m.peek mcu r,
   { m with
     nreads := fun x => if x = r then m.nreads r + 1 else m.nreads x
     trace := m.trace ++ [Event.rd r (m.peek mcu r)] })

/-- Store to a one-bit bit-field at position `b` of `r`: load the register,
set or clear the bit, store the register. -/
def Machine.writeBit (mcu : Mcu) (r : Reg) (b : Nat) (x : Bool) (m : Machine) : Machine :=
  let p := m.read mcu r
  p.2.write r (if x then p.1 ||| (1 <<< b) else p.1 ^^^ (p.1 &&& (1 <<< b)))

/-- Result of running a function with bounded loops. -/
inductive Outcome
  | returned (m : Machine)
  | spinning (m : Machine)

/-- Machine reached, whether the function returned or is still spinning. -/
def Outcome.machine : Outcome → Machine
  | .returned m => m
  | .spinning m => m

/-- Whether the function returned. -/
def Outcome.isReturned : Outcome → Bool
  | .returned _ => true
  | .spinning _ => false

/-- Sequencing: continue with `f` once the first part has returned. -/
def Outcome.bind (o : Outcome) (f : Machine → Outcome) : Outcome :=
  match o with
  | .returned m => f m
  | .spinning m => .spinning m

/-- Macro `BITS(a,b,c,d)` of common.h, `0b##a##b##c##d`: the four arguments are
strings of binary digits, pasted together after `0b`; the result is the binary
literal so obtained.  Digits are given most significant first. -/
def BITS (a b c d : List Nat) : Nat :=
  (a ++ b ++ c ++ d).foldl (fun acc x => 2 * acc + x) 0

/-- Five binary digits of `n`, most significant first: the way a trim field
is spelled in an argument of `BITS`. -/
def digits5 (n : Nat) : List Nat :=
  [n / 16 % 2, n / 8 % 2, n / 4 % 2, n / 2 % 2, n % 2]

/-- Field `RCS` of `SCM_CTL` (and `RCM` of `SCM_STR`): bits 7..5. -/
def RCS (v : Nat) : Nat := (v >>> 5) % 8

/-- Function `delay` of common.c: `while (loops--) asm("nop");`. -/
def delay : Nat → Machine → Machine
  | 0, m => m
  | n + 1, m => delay n m

/-- Loop of `init_watchdog`:
`while (WDG_LCK != 0) { WDG_LCK = 0x1ACCE551; WDG_LCK = 0xE5331AAE; }`. -/
def init_watchdog_loop : Nat → Mcu → Machine → Outcome
  | 0, _, m => .spinning m
  | fuel + 1, mcu, m =>
    let p := m.read mcu .WDG_LCK
    if p.1 != 0 then
      init_watchdog_loop fuel mcu
        ((p.2.write .WDG_LCK 0x1ACCE551).write .WDG_LCK 0xE5331AAE)
    else .returned p.2

/-- Function `init_watchdog` of common.c. -/
def init_watchdog (fuel : Nat) (mcu : Mcu) (onoff : Bool) (m : Machine) : Outcome :=
  (init_watchdog_loop fuel mcu m).bind fun m =>
    .returned (m.write .WDG_CTL (if onoff then 1 else 0))

/-- Loop `while (! FM3_CRG->SCM_STR_f.PLRDY);` of `init_clock`. -/
def wait_pll_ready : Nat → Mcu → Machine → Outcome
  | 0, _, m => .spinning m
  | fuel + 1, mcu, m =>
    let p := m.read mcu .SCM_STR
    if !(p.1.testBit mcu.PLRDY) then wait_pll_ready fuel mcu p.2
    else .returned p.2

/-- Loop `while ((SCM_CTL & 0xE0) != (SCM_STR & 0xE0));` ending `init_clock`
and `init_clock_lc`; the operands are read left to right. -/
def wait_clock_switch : Nat → Mcu → Machine → Outcome
  | 0, _, m => .spinning m
  | fuel + 1, mcu, m =>
    let c := m.read mcu .SCM_CTL
    let s := c.2.read mcu .SCM_STR
    if (c.1 &&& 0xE0) != (s.1 &&& 0xE0) then wait_clock_switch fuel mcu s.2
    else .returned s.2

/-- Function `init_clock` of common.c. -/
def init_clock (fuel : Nat) (mcu : Mcu) (m : Machine) : Outcome :=
  let m := m.write .MCR_RLR 0x1ACCE554
  let m := m.write .MCR_PSR 0b01
  let m := m.write .MCR_FTRM (BITS [] [] [0,1,1,0,0] [1,1,0,0,1])
  let m := m.write .MCR_RLR 0
  let m := m.write .BSC_PSR 0x00
  let m := m.write .APBC0_PSR 0x00
  let m := m.write .APBC1_PSR 0x80
  let m := m.write .APBC2_PSR 0x80
  let m := m.write .SWC_PSR 0x80
  let m := m.write .PSW_TMR 0b00010000
  let m := m.write .PLL_CTL1 0x00
  let m := m.write .PLL_CTL2 4
  let m := m.write .SCM_CTL 0b00010000
  (wait_pll_ready fuel mcu m).bind fun m =>
    let m := m.write .SCM_CTL 0b01010000
    wait_clock_switch fuel mcu m

/-- Function `init_clock_lc` of common.c. -/
def init_clock_lc (fuel : Nat) (mcu : Mcu) (m : Machine) : Outcome :=
  let m := m.write .MCR_RLR 0x1ACCE554
  let m := m.write .MCR_FTRM (BITS [] [] [0,0,0,0,0] [0,0,0,0,0])
  let m := m.write .MCR_RLR 0
  let m := m.write .BSC_PSR 0x00
  let m := m.write .APBC0_PSR 0x00
  let m := m.write .APBC1_PSR 0x80
  let m := m.write .APBC2_PSR 0x80
  let m := m.write .SWC_PSR 0x80
  let m := m.write .SCM_CTL 0b10000000
  wait_clock_switch fuel mcu m

/-- Function `init` of blink.c. -/
def init (fuel : Nat) (mcu : Mcu) (m : Machine) : Outcome :=
  (init_watchdog fuel mcu false m).bind fun m =>
    .returned (m.write .DDR5 0xFF)

/-- Function `do_blink` of blink.c. -/
def do_blink (mcu : Mcu) (m : Machine) : Machine :=
  let m := m.writeBit mcu .PDOR5 mcu.P1 false
  let m := delay 500000 m
  let m := m.writeBit mcu .PDOR5 mcu.P1 true
  delay 500000 m

/-- Loop `for (;;) { do_blink(); }` of `main`: it has no exit. -/
def main_loop : Nat → Mcu → Machine → Outcome
  | 0, _, m => .spinning m
  | fuel + 1, mcu, m => main_loop fuel mcu (do_blink mcu m)

/-- Function `main` of blink.c. -/
def main (fuel : Nat) (mcu : Mcu) (m : Machine) : Outcome :=
  (init fuel mcu m).bind fun m => main_loop fuel mcu m

/-- Value of the last write to `r` in a trace, if any. -/
def lastWrite (r : Reg) : List Event → Option Nat
  | [] => none
  | e :: t =>
    match lastWrite r t with
    | some v => some v
    | none =>
      match e with
      | .wr x v => if x = r then some v else none
      | .rd _ _ => none

/-- Register an event accesses. -/
def Event.reg : Event → Reg
  | .rd r _ => r
  | .wr r _ => r

/-- Whether an event is a write. -/
def Event.isWrite : Event → Bool
  | .rd _ _ => false
  | .wr _ _ => true

/-- A hardware on which every status register always reads `v`, with `PLRDY`
at bit 4 of `SCM_STR` and `P1` at bit 1 of `PDOR5`. -/
def constMcu (v : Nat) : Mcu :=
  { PLRDY := 4, P1 := 1, status := fun _ _ => v }

/-- A hardware on which every status register reads `v` for its first `k`
reads and `w` from then on, with `PLRDY` at bit 4 of `SCM_STR` and `P1` at
bit 1 of `PDOR5`. -/
def stepMcu (k v w : Nat) : Mcu :=
  { PLRDY := 4, P1 := 1, status := fun _ n => if n < k then v else w }

/-- The trim sequence of `init_clock_lc` (unlock `MCR_FTRM`, write it, lock
it again), with the two five-digit arguments of `BITS` as parameters. -/
def trim_sequence (coarse fine : List Nat) (m : Machine) : Machine :=
  ((m.write .MCR_RLR 0x1ACCE554).write .MCR_FTRM (BITS [] [] coarse fine)).write .MCR_RLR 0

/-- The trim sequence of `init_clock`: as `trim_sequence`, with the write of
`MCR_PSR` that `init_clock` makes between unlocking and trimming. -/
def trim_sequence_psr (coarse fine : List Nat) (m : Machine) : Machine :=
  (((m.write .MCR_RLR 0x1ACCE554).write .MCR_PSR 0b01).write .MCR_FTRM
    (BITS [] [] coarse fine)).write .MCR_RLR 0

/-- A hardware on which the trim unlock never latches: the lock status
`MCR_RLR` always reads 1 (locked).  Its `SCM_STR` reads `0x50` twice and
`0x80` afterwards, so that both `init_clock` and `init_clock_lc` return. -/
def lockedMcu : Mcu :=
  { PLRDY := 4, P1 := 1,
    status := fun r n =>
      match r with
      | .MCR_RLR => 1
      | _ => if n < 2 then 0x50 else 0x80 }

/-- The retry behaviour a trace would show if the unlock key were written
until the lock status read clear on a hardware where the first key write does
not latch: the key is written at least twice, and a read of `MCR_RLR`
returning 0 precedes every write of `MCR_FTRM`. -/
def UnlockRetried (E : List Event) : Prop :=
  2 ≤ E.count (.wr .MCR_RLR 0x1ACCE554) ∧
  ∀ pre v post, E = pre ++ .wr .MCR_FTRM v :: post → Event.rd .MCR_RLR 0 ∈ pre

/-- What a trace of `main` would satisfy if the clock were trimmed and
selected before blinking: every write to `PDOR5` is preceded by a write to
`MCR_FTRM` and by a write to `SCM_CTL`. -/
def ClockSetupPrecedesBlink (E : List Event) : Prop :=
  ∀ pre v post, E = pre ++ .wr .PDOR5 v :: post →
    (∃ a, Event.wr .MCR_FTRM a ∈ pre) ∧ (∃ b, Event.wr .SCM_CTL b ∈ pre)

/-- The five bus prescaler registers. -/
def isPrescaler : Reg → Bool
  | .BSC_PSR => true
  | .APBC0_PSR => true
  | .APBC1_PSR => true
  | .APBC2_PSR => true
  | .SWC_PSR => true
  | _ => false

/-- The prescaler writes made by `init_clock` and by `init_clock_lc`. -/
def prescalerWrites : List Event :=
  [.wr .BSC_PSR 0x00, .wr .APBC0_PSR 0x00, .wr .APBC1_PSR 0x80, .wr .APBC2_PSR 0x80,
   .wr .SWC_PSR 0x80]

/-- Writes of `init_clock` up to and including the PLL-enable write, i.e. all
accesses before the PLL-ready loop. -/
def pllSetupEvents : List Event :=
  [.wr .MCR_RLR 0x1ACCE554, .wr .MCR_PSR 0b01, .wr .MCR_FTRM 0b0110011001,
   .wr .MCR_RLR 0, .wr .BSC_PSR 0x00, .wr .APBC0_PSR 0x00, .wr .APBC1_PSR 0x80,
   .wr .APBC2_PSR 0x80, .wr .SWC_PSR 0x80, .wr .PSW_TMR 0b00010000,
   .wr .PLL_CTL1 0x00, .wr .PLL_CTL2 4, .wr .SCM_CTL 0b00010000]

/-- Writes of `init_clock_lc`, i.e. all accesses before its final loop. -/
def lcSetupEvents : List Event :=
  [.wr .MCR_RLR 0x1ACCE554, .wr .MCR_FTRM 0, .wr .MCR_RLR 0, .wr .BSC_PSR 0x00,
   .wr .APBC0_PSR 0x00, .wr .APBC1_PSR 0x80, .wr .APBC2_PSR 0x80,
   .wr .SWC_PSR 0x80, .wr .SCM_CTL 0b10000000]

/-- Events of `k` polls of `PLRDY`, the first one being read number `n` of
`SCM_STR`. -/
def pllPolls (mcu : Mcu) : Nat → Nat → List Event
  | _, 0 => []
  | n, k + 1 => .rd .SCM_STR (mcu.status .SCM_STR n) :: pllPolls mcu (n + 1) k

/-- Events of `k` polls of the clock-switch loop while `SCM_CTL` holds `c`,
the first one making read number `n` of `SCM_STR`. -/
def switchPolls (mcu : Mcu) (c : Nat) : Nat → Nat → List Event
  | _, 0 => []
  | n, k + 1 =>
    .rd .SCM_CTL c :: .rd .SCM_STR (mcu.status .SCM_STR n) :: switchPolls mcu c (n + 1) k

/-- Events of `k` rounds of the watchdog unlock loop in which `WDG_LCK` read
non-zero, the first one making read number `n` of `WDG_LCK`. -/
def unlockRounds (mcu : Mcu) : Nat → Nat → List Event
  | _, 0 => []
  | n, k + 1 =>
    .rd .WDG_LCK (mcu.status .WDG_LCK n) :: .wr .WDG_LCK 0x1ACCE551 ::
      .wr .WDG_LCK 0xE5331AAE :: unlockRounds mcu (n + 1) k

/-- Machine of `init_clock` on entry to the PLL-ready loop. -/
def pllSetup (m : Machine) : Machine :=
  ((((((((((((m.write .MCR_RLR 0x1ACCE554).write .MCR_PSR 0b01).write .MCR_FTRM
    (BITS [] [] [0,1,1,0,0] [1,1,0,0,1])).write .MCR_RLR 0).write .BSC_PSR 0x00).write
    .APBC0_PSR 0x00).write .APBC1_PSR 0x80).write .APBC2_PSR 0x80).write .SWC_PSR
    0x80).write .PSW_TMR 0b00010000).write .PLL_CTL1 0x00).write .PLL_CTL2 4).write
    .SCM_CTL 0b00010000

/-- Machine of `init_clock_lc` on entry to its loop. -/
def lcSetup (m : Machine) : Machine :=
  ((((((((m.write .MCR_RLR 0x1ACCE554).write .MCR_FTRM
    (BITS [] [] [0,0,0,0,0] [0,0,0,0,0])).write .MCR_RLR 0).write .BSC_PSR 0x00).write
    .APBC0_PSR 0x00).write .APBC1_PSR 0x80).write .APBC2_PSR 0x80).write .SWC_PSR
    0x80).write .SCM_CTL 0b10000000


/-! ## Basic facts about the machine operations -/

@[simp] theorem write_trace (r : Reg) (v : Nat) (m : Machine) :
    (m.write r v).trace = m.trace ++ [Event.wr r v] := rfl

@[simp] theorem write_nreads (r : Reg) (v : Nat) (m : Machine) :
    (m.write r v).nreads = m.nreads := rfl

@[simp] theorem write_regs (r : Reg) (v : Nat) (m : Machine) (x : Reg) :
    (m.write r v).regs x = if x = r then v else m.regs x := rfl

@[simp] theorem read_regs (mcu : Mcu) (r : Reg) (m : Machine) :
    (m.read mcu r).2.regs = m.regs := rfl

@[simp] theorem read_trace (mcu : Mcu) (r : Reg) (m : Machine) :
    (m.read mcu r).2.trace = m.trace ++ [Event.rd r (m.peek mcu r)] := rfl

@[simp] theorem read_nreads (mcu : Mcu) (r : Reg) (m : Machine) (x : Reg) :
    (m.read mcu r).2.nreads x = if x = r then m.nreads r + 1 else m.nreads x := rfl

@[simp] theorem read_value (mcu : Mcu) (r : Reg) (m : Machine) :
    (m.read mcu r).1 = m.peek mcu r := rfl

theorem delay_eq (n : Nat) (m : Machine) : delay n m = m := by
  induction n with
  | zero => rfl
  | succ k ih => simpa [delay] using ih

/-! ## The loops leave the register file unchanged -/

theorem wait_pll_ready_regs :
    ∀ (fuel : Nat) (mcu : Mcu) (m : Machine),
      (wait_pll_ready fuel mcu m).machine.regs = m.regs
  | 0, _, _ => rfl
  | fuel + 1, mcu, m => by
    simp only [wait_pll_ready]
    split
    · rw [wait_pll_ready_regs fuel]; rfl
    · rfl

theorem wait_clock_switch_regs :
    ∀ (fuel : Nat) (mcu : Mcu) (m : Machine),
      (wait_clock_switch fuel mcu m).machine.regs = m.regs
  | 0, _, _ => rfl
  | fuel + 1, mcu, m => by
    simp only [wait_clock_switch]
    split
    · rw [wait_clock_switch_regs fuel]; rfl
    · rfl

/-! ## Exact behaviour of the three loops -/

theorem peek_SCM_STR (mcu : Mcu) (m : Machine) :
    m.peek mcu .SCM_STR = mcu.status .SCM_STR (m.nreads .SCM_STR) := rfl

theorem peek_SCM_CTL (mcu : Mcu) (m : Machine) :
    m.peek mcu .SCM_CTL = m.regs .SCM_CTL := rfl

theorem peek_WDG_LCK (mcu : Mcu) (m : Machine) :
    m.peek mcu .WDG_LCK = mcu.status .WDG_LCK (m.nreads .WDG_LCK) := rfl

/-- The PLL-ready loop returns at the first poll that reads `PLRDY` set. -/
theorem wait_pll_ready_returns :
    ∀ (fuel p : Nat) (mcu : Mcu) (m : Machine), p < fuel →
      (∀ j, j < p →
        (mcu.status .SCM_STR (m.nreads .SCM_STR + j)).testBit mcu.PLRDY = false) →
      (mcu.status .SCM_STR (m.nreads .SCM_STR + p)).testBit mcu.PLRDY = true →
      ∃ m', wait_pll_ready fuel mcu m = .returned m' ∧ m'.regs = m.regs ∧
        m'.nreads .SCM_STR = m.nreads .SCM_STR + (p + 1) ∧
        m'.trace = m.trace ++ pllPolls mcu (m.nreads .SCM_STR) (p + 1)
  | 0, _, _, _, hp, _, _ => absurd hp (Nat.not_lt_zero _)
  | fuel + 1, 0, mcu, m, _, _, hr => by
    have hr0 : (mcu.status .SCM_STR (m.nreads .SCM_STR)).testBit mcu.PLRDY = true := by
      simpa using hr
    refine ⟨(m.read mcu .SCM_STR).2, ?_, rfl, ?_, ?_⟩
    · simp [wait_pll_ready, peek_SCM_STR, hr0]
    · simp
    · simp [pllPolls, peek_SCM_STR]
  | fuel + 1, p + 1, mcu, m, hp, hn, hr => by
    have h0 : (mcu.status .SCM_STR (m.nreads .SCM_STR)).testBit mcu.PLRDY = false := by
      simpa using hn 0 (Nat.succ_pos p)
    have hm1 : (m.read mcu .SCM_STR).2.nreads .SCM_STR = m.nreads .SCM_STR + 1 := by simp
    obtain ⟨m', e, hregs, hcount, htrace⟩ :=
      wait_pll_ready_returns fuel p mcu (m.read mcu .SCM_STR).2 (Nat.lt_of_succ_lt_succ hp)
        (fun j hj => by
          rw [hm1, Nat.add_assoc, Nat.add_comm 1 j]
          exact hn (j + 1) (Nat.succ_lt_succ hj))
        (by rw [hm1, Nat.add_assoc, Nat.add_comm 1 p]; exact hr)
    refine ⟨m', ?_, ?_, ?_, ?_⟩
    · simp only [wait_pll_ready, read_value, peek_SCM_STR, h0]
      simpa using e
    · simpa using hregs
    · rw [hcount, hm1]; omega
    · rw [htrace, hm1]
      simp [pllPolls, peek_SCM_STR]

/-- The PLL-ready loop is still spinning after `fuel` polls that all read
`PLRDY` clear. -/
theorem wait_pll_ready_spins :
    ∀ (fuel : Nat) (mcu : Mcu) (m : Machine),
      (∀ j, j < fuel →
        (mcu.status .SCM_STR (m.nreads .SCM_STR + j)).testBit mcu.PLRDY = false) →
      ∃ m', wait_pll_ready fuel mcu m = .spinning m' ∧ m'.regs = m.regs ∧
        m'.nreads .SCM_STR = m.nreads .SCM_STR + fuel ∧
        m'.trace = m.trace ++ pllPolls mcu (m.nreads .SCM_STR) fuel
  | 0, mcu, m, _ => ⟨m, rfl, rfl, rfl, by simp [pllPolls]⟩
  | fuel + 1, mcu, m, hn => by
    have h0 : (mcu.status .SCM_STR (m.nreads .SCM_STR)).testBit mcu.PLRDY = false := by
      simpa using hn 0 (Nat.succ_pos fuel)
    have hm1 : (m.read mcu .SCM_STR).2.nreads .SCM_STR = m.nreads .SCM_STR + 1 := by simp
    obtain ⟨m', e, hregs, hcount, htrace⟩ :=
      wait_pll_ready_spins fuel mcu (m.read mcu .SCM_STR).2
        (fun j hj => by
          rw [hm1, Nat.add_assoc, Nat.add_comm 1 j]
          exact hn (j + 1) (Nat.succ_lt_succ hj))
    refine ⟨m', ?_, ?_, ?_, ?_⟩
    · simp only [wait_pll_ready, read_value, peek_SCM_STR, h0]
      simpa using e
    · simpa using hregs
    · rw [hcount, hm1]; omega
    · rw [htrace, hm1]
      simp [pllPolls, peek_SCM_STR]

/-- The clock-switch loop returns at the first poll at which the masked status
equals the masked control register. -/
theorem wait_clock_switch_returns :
    ∀ (fuel k : Nat) (mcu : Mcu) (m : Machine), k < fuel →
      (∀ j, j < k →
        mcu.status .SCM_STR (m.nreads .SCM_STR + j) &&& 0xE0 ≠ m.regs .SCM_CTL &&& 0xE0) →
      mcu.status .SCM_STR (m.nreads .SCM_STR + k) &&& 0xE0 = m.regs .SCM_CTL &&& 0xE0 →
      ∃ m', wait_clock_switch fuel mcu m = .returned m' ∧ m'.regs = m.regs ∧
        m'.nreads .SCM_STR = m.nreads .SCM_STR + (k + 1) ∧
        m'.trace =
          m.trace ++ switchPolls mcu (m.regs .SCM_CTL) (m.nreads .SCM_STR) (k + 1)
  | 0, _, _, _, hk, _, _ => absurd hk (Nat.not_lt_zero _)
  | fuel + 1, 0, mcu, m, _, _, hr => by
    have hr0 : mcu.status .SCM_STR (m.nreads .SCM_STR) &&& 0xE0 = m.regs .SCM_CTL &&& 0xE0 := by
      simpa using hr
    refine ⟨((m.read mcu .SCM_CTL).2.read mcu .SCM_STR).2, ?_, rfl, ?_, ?_⟩
    · simp [wait_clock_switch, peek_SCM_STR, peek_SCM_CTL, hr0]
    · simp
    · simp [switchPolls, peek_SCM_STR, peek_SCM_CTL]
  | fuel + 1, k + 1, mcu, m, hk, hn, hr => by
    have h0 : mcu.status .SCM_STR (m.nreads .SCM_STR) &&& 0xE0 ≠ m.regs .SCM_CTL &&& 0xE0 := by
      simpa using hn 0 (Nat.succ_pos k)
    have hm1 : ((m.read mcu .SCM_CTL).2.read mcu .SCM_STR).2.nreads .SCM_STR
        = m.nreads .SCM_STR + 1 := by simp
    have hc1 : ((m.read mcu .SCM_CTL).2.read mcu .SCM_STR).2.regs = m.regs := rfl
    obtain ⟨m', e, hregs, hcount, htrace⟩ :=
      wait_clock_switch_returns fuel k mcu ((m.read mcu .SCM_CTL).2.read mcu .SCM_STR).2
        (Nat.lt_of_succ_lt_succ hk)
        (fun j hj => by
          rw [hm1, hc1, Nat.add_assoc, Nat.add_comm 1 j]
          exact hn (j + 1) (Nat.succ_lt_succ hj))
        (by rw [hm1, hc1, Nat.add_assoc, Nat.add_comm 1 k]; exact hr)
    refine ⟨m', ?_, ?_, ?_, ?_⟩
    · simp only [wait_clock_switch, read_value, peek_SCM_STR, peek_SCM_CTL]
      simpa [Ne.symm h0] using e
    · simpa using hregs
    · rw [hcount, hm1]; omega
    · rw [htrace, hm1, hc1]
      simp [switchPolls, peek_SCM_STR, peek_SCM_CTL]

/-- The clock-switch loop is still spinning after `fuel` polls none of which
read a masked status equal to the masked control register. -/
theorem wait_clock_switch_spins :
    ∀ (fuel : Nat) (mcu : Mcu) (m : Machine),
      (∀ j, j < fuel →
        mcu.status .SCM_STR (m.nreads .SCM_STR + j) &&& 0xE0 ≠ m.regs .SCM_CTL &&& 0xE0) →
      ∃ m', wait_clock_switch fuel mcu m = .spinning m' ∧ m'.regs = m.regs ∧
        m'.nreads .SCM_STR = m.nreads .SCM_STR + fuel ∧
        m'.trace = m.trace ++ switchPolls mcu (m.regs .SCM_CTL) (m.nreads .SCM_STR) fuel
  | 0, mcu, m, _ => ⟨m, rfl, rfl, rfl, by simp [switchPolls]⟩
  | fuel + 1, mcu, m, hn => by
    have h0 : mcu.status .SCM_STR (m.nreads .SCM_STR) &&& 0xE0 ≠ m.regs .SCM_CTL &&& 0xE0 := by
      simpa using hn 0 (Nat.succ_pos fuel)
    have hm1 : ((m.read mcu .SCM_CTL).2.read mcu .SCM_STR).2.nreads .SCM_STR
        = m.nreads .SCM_STR + 1 := by simp
    have hc1 : ((m.read mcu .SCM_CTL).2.read mcu .SCM_STR).2.regs = m.regs := rfl
    obtain ⟨m', e, hregs, hcount, htrace⟩ :=
      wait_clock_switch_spins fuel mcu ((m.read mcu .SCM_CTL).2.read mcu .SCM_STR).2
        (fun j hj => by
          rw [hm1, hc1, Nat.add_assoc, Nat.add_comm 1 j]
          exact hn (j + 1) (Nat.succ_lt_succ hj))
    refine ⟨m', ?_, ?_, ?_, ?_⟩
    · simp only [wait_clock_switch, read_value, peek_SCM_STR, peek_SCM_CTL]
      simpa [Ne.symm h0] using e
    · simpa using hregs
    · rw [hcount, hm1]; omega
    · rw [htrace, hm1, hc1]
      simp [switchPolls, peek_SCM_STR, peek_SCM_CTL]

/-- The watchdog unlock loop returns at the first read of `WDG_LCK` that
returns 0, after one round of two key writes per earlier read. -/
theorem init_watchdog_loop_returns :
    ∀ (fuel k : Nat) (mcu : Mcu) (m : Machine), k < fuel →
      (∀ j, j < k → mcu.status .WDG_LCK (m.nreads .WDG_LCK + j) ≠ 0) →
      mcu.status .WDG_LCK (m.nreads .WDG_LCK + k) = 0 →
      ∃ m', init_watchdog_loop fuel mcu m = .returned m' ∧
        m'.trace = m.trace ++ unlockRounds mcu (m.nreads .WDG_LCK) k ++ [.rd .WDG_LCK 0]
  | 0, _, _, _, hk, _, _ => absurd hk (Nat.not_lt_zero _)
  | fuel + 1, 0, mcu, m, _, _, hr => by
    have hr0 : mcu.status .WDG_LCK (m.nreads .WDG_LCK) = 0 := by simpa using hr
    refine ⟨(m.read mcu .WDG_LCK).2, ?_, ?_⟩
    · simp [init_watchdog_loop, peek_WDG_LCK, hr0]
    · simp [unlockRounds, peek_WDG_LCK, hr0]
  | fuel + 1, k + 1, mcu, m, hk, hn, hr => by
    have h0 : mcu.status .WDG_LCK (m.nreads .WDG_LCK) ≠ 0 := by
      simpa using hn 0 (Nat.succ_pos k)
    have hm1 : (((m.read mcu .WDG_LCK).2.write .WDG_LCK 0x1ACCE551).write .WDG_LCK
        0xE5331AAE).nreads .WDG_LCK = m.nreads .WDG_LCK + 1 := by simp
    obtain ⟨m', e, htrace⟩ :=
      init_watchdog_loop_returns fuel k mcu
        (((m.read mcu .WDG_LCK).2.write .WDG_LCK 0x1ACCE551).write .WDG_LCK 0xE5331AAE)
        (Nat.lt_of_succ_lt_succ hk)
        (fun j hj => by
          rw [hm1, Nat.add_assoc, Nat.add_comm 1 j]
          exact hn (j + 1) (Nat.succ_lt_succ hj))
        (by rw [hm1, Nat.add_assoc, Nat.add_comm 1 k]; exact hr)
    refine ⟨m', ?_, ?_⟩
    · simp only [init_watchdog_loop, read_value, peek_WDG_LCK]
      simpa [h0] using e
    · rw [htrace, hm1]
      simp [unlockRounds, peek_WDG_LCK]

/-- The watchdog unlock loop is still spinning after `fuel` reads of
`WDG_LCK` that all returned non-zero. -/
theorem init_watchdog_loop_spins :
    ∀ (fuel : Nat) (mcu : Mcu) (m : Machine),
      (∀ j, j < fuel → mcu.status .WDG_LCK (m.nreads .WDG_LCK + j) ≠ 0) →
      ∃ m', init_watchdog_loop fuel mcu m = .spinning m' ∧
        m'.trace = m.trace ++ unlockRounds mcu (m.nreads .WDG_LCK) fuel
  | 0, mcu, m, _ => ⟨m, rfl, by simp [unlockRounds]⟩
  | fuel + 1, mcu, m, hn => by
    have h0 : mcu.status .WDG_LCK (m.nreads .WDG_LCK) ≠ 0 := by
      simpa using hn 0 (Nat.succ_pos fuel)
    have hm1 : (((m.read mcu .WDG_LCK).2.write .WDG_LCK 0x1ACCE551).write .WDG_LCK
        0xE5331AAE).nreads .WDG_LCK = m.nreads .WDG_LCK + 1 := by simp
    obtain ⟨m', e, htrace⟩ :=
      init_watchdog_loop_spins fuel mcu
        (((m.read mcu .WDG_LCK).2.write .WDG_LCK 0x1ACCE551).write .WDG_LCK 0xE5331AAE)
        (fun j hj => by
          rw [hm1, Nat.add_assoc, Nat.add_comm 1 j]
          exact hn (j + 1) (Nat.succ_lt_succ hj))
    refine ⟨m', ?_, ?_⟩
    · simp only [init_watchdog_loop, read_value, peek_WDG_LCK]
      simpa [h0] using e
    · rw [htrace, hm1]
      simp [unlockRounds, peek_WDG_LCK]

/-- Rounds of the unlock loop contain no access to `WDG_CTL`. -/
theorem unlockRounds_reg (mcu : Mcu) :
    ∀ (k n : Nat) (e : Event), e ∈ unlockRounds mcu n k → e.reg = .WDG_LCK
  | 0, _, _, h => by simp [unlockRounds] at h
  | k + 1, n, e, h => by
    simp only [unlockRounds, List.mem_cons] at h
    rcases h with h | h | h | h
    · rw [h]; rfl
    · rw [h]; rfl
    · rw [h]; rfl
    · exact unlockRounds_reg mcu k (n + 1) e h

theorem init_clock_eq (fuel : Nat) (mcu : Mcu) (m : Machine) :
    init_clock fuel mcu m =
      (wait_pll_ready fuel mcu (pllSetup m)).bind fun m1 =>
        wait_clock_switch fuel mcu (m1.write .SCM_CTL 0b01010000) := rfl

theorem init_clock_lc_eq (fuel : Nat) (mcu : Mcu) (m : Machine) :
    init_clock_lc fuel mcu m = wait_clock_switch fuel mcu (lcSetup m) := rfl

theorem pllSetup_trace (m : Machine) :
    (pllSetup m).trace = m.trace ++ pllSetupEvents := by
  simp [pllSetup, pllSetupEvents, BITS]

theorem lcSetup_trace (m : Machine) :
    (lcSetup m).trace = m.trace ++ lcSetupEvents := by
  simp [lcSetup, lcSetupEvents, BITS]

theorem pllSetup_nreads (m : Machine) : (pllSetup m).nreads = m.nreads := rfl

theorem lcSetup_nreads (m : Machine) : (lcSetup m).nreads = m.nreads := rfl

/-! ## Composite behaviour of `init_clock` and `init_clock_lc` -/

theorem and_E0 (v : Nat) : v &&& 0xE0 = 32 * RCS v := by
  unfold RCS
  apply Nat.eq_of_testBit_eq
  intro i
  have h32 : (32 : Nat) = 2 ^ 5 := rfl
  have h8 : (8 : Nat) = 2 ^ 3 := rfl
  rw [Nat.testBit_and, h32, Nat.testBit_mul_pow_two, h8, Nat.testBit_mod_two_pow,
    Nat.testBit_shiftRight]
  by_cases hi : i < 8
  · interval_cases i <;> simp [Nat.testBit]
  · have h1 : Nat.testBit 224 i = false :=
      Nat.testBit_lt_two_pow
        (lt_of_lt_of_le (by norm_num) (Nat.pow_le_pow_right (by norm_num) (Nat.le_of_not_lt hi)))
    have h2 : ¬ (i - 5 < 3) := by omega
    simp [h1, h2]

/-- Comparing two bytes under the mask `0xE0` compares their bits 7..5. -/
theorem mask_eq_iff (v w : Nat) : v &&& 0xE0 = w &&& 0xE0 ↔ RCS v = RCS w := by
  rw [and_E0, and_E0]; omega

theorem pllSetup_regs_SCM_CTL (m : Machine) : (pllSetup m).regs .SCM_CTL = 0b00010000 := by
  simp [pllSetup]

theorem lcSetup_regs_SCM_CTL (m : Machine) : (lcSetup m).regs .SCM_CTL = 0b10000000 := by
  simp [lcSetup]

theorem pllPolls_length (mcu : Mcu) : ∀ (k n : Nat), (pllPolls mcu n k).length = k
  | 0, _ => rfl
  | k + 1, n => by simp [pllPolls, pllPolls_length mcu k]

theorem pllPolls_isRead (mcu : Mcu) :
    ∀ (k n : Nat) (e : Event), e ∈ pllPolls mcu n k → ∃ v, e = .rd .SCM_STR v
  | 0, _, _, h => by simp [pllPolls] at h
  | k + 1, n, e, h => by
    simp only [pllPolls, List.mem_cons] at h
    rcases h with h | h
    · exact ⟨_, h⟩
    · exact pllPolls_isRead mcu k (n + 1) e h

theorem switchPolls_isRead (mcu : Mcu) (c : Nat) :
    ∀ (k n : Nat) (e : Event), e ∈ switchPolls mcu c n k → ∃ r v, e = .rd r v
  | 0, _, _, h => by simp [switchPolls] at h
  | k + 1, n, e, h => by
    simp only [switchPolls, List.mem_cons] at h
    rcases h with h | h | h
    · exact ⟨_, _, h⟩
    · exact ⟨_, _, h⟩
    · exact switchPolls_isRead mcu c k (n + 1) e h

/-- `init_clock` while `PLRDY` has only been read clear. -/
theorem init_clock_pll_spinning (fuel : Nat) (mcu : Mcu) (m : Machine)
    (hn : ∀ j, j < fuel →
      (mcu.status .SCM_STR (m.nreads .SCM_STR + j)).testBit mcu.PLRDY = false) :
    ∃ m', init_clock fuel mcu m = .spinning m' ∧
      m'.nreads .SCM_STR = m.nreads .SCM_STR + fuel ∧
      m'.trace = m.trace ++ pllSetupEvents ++ pllPolls mcu (m.nreads .SCM_STR) fuel := by
  obtain ⟨m1, e, _, hc, ht⟩ := wait_pll_ready_spins fuel mcu (pllSetup m) hn
  refine ⟨m1, ?_, hc, ?_⟩
  · rw [init_clock_eq, e]; rfl
  · rw [ht, pllSetup_trace]; rfl

/-- `init_clock` after `PLRDY` was first read set at poll `p`, while the
clock-switch loop has found no match. -/
theorem init_clock_switch_spinning (fuel p : Nat) (mcu : Mcu) (m : Machine) (hp : p < fuel)
    (hn : ∀ j, j < p →
      (mcu.status .SCM_STR (m.nreads .SCM_STR + j)).testBit mcu.PLRDY = false)
    (hr : (mcu.status .SCM_STR (m.nreads .SCM_STR + p)).testBit mcu.PLRDY = true)
    (hs : ∀ j, j < fuel →
      RCS (mcu.status .SCM_STR (m.nreads .SCM_STR + (p + 1) + j)) ≠ 0b010) :
    ∃ m', init_clock fuel mcu m = .spinning m' ∧
      m'.nreads .SCM_STR = m.nreads .SCM_STR + (p + 1) + fuel ∧
      m'.trace = m.trace ++ pllSetupEvents ++ pllPolls mcu (m.nreads .SCM_STR) (p + 1) ++
        .wr .SCM_CTL 0b01010000 ::
          switchPolls mcu 0b01010000 (m.nreads .SCM_STR + (p + 1)) fuel := by
  obtain ⟨m1, e1, _, hc1, ht1⟩ := wait_pll_ready_returns fuel p mcu (pllSetup m) hp hn hr
  have hc2 : (m1.write .SCM_CTL 0b01010000).nreads .SCM_STR = m.nreads .SCM_STR + (p + 1) := hc1
  have hv2 : (m1.write .SCM_CTL 0b01010000).regs .SCM_CTL = 0b01010000 := by simp
  obtain ⟨m2, e2, _, hcnt, ht2⟩ :=
    wait_clock_switch_spins fuel mcu (m1.write .SCM_CTL 0b01010000)
      (fun j hj => by
        rw [hc2, hv2]
        intro hc
        exact hs j hj ((mask_eq_iff _ _).1 hc))
  refine ⟨m2, ?_, ?_, ?_⟩
  · rw [init_clock_eq, e1]; exact e2
  · rw [hcnt, hc2]
  · rw [ht2, hc2, hv2, write_trace, ht1, pllSetup_trace]
    simp [pllSetup_nreads]

/-- `init_clock` when `PLRDY` is first read set at poll `p` and the status
source field first reads `0b010` at poll `k` of the clock-switch loop. -/
theorem init_clock_returns (fuel p k : Nat) (mcu : Mcu) (m : Machine)
    (hp : p < fuel) (hk : k < fuel)
    (hn : ∀ j, j < p →
      (mcu.status .SCM_STR (m.nreads .SCM_STR + j)).testBit mcu.PLRDY = false)
    (hr : (mcu.status .SCM_STR (m.nreads .SCM_STR + p)).testBit mcu.PLRDY = true)
    (hs : ∀ j, j < k →
      RCS (mcu.status .SCM_STR (m.nreads .SCM_STR + (p + 1) + j)) ≠ 0b010)
    (hm : RCS (mcu.status .SCM_STR (m.nreads .SCM_STR + (p + 1) + k)) = 0b010) :
    ∃ m', init_clock fuel mcu m = .returned m' ∧
      m'.nreads .SCM_STR = m.nreads .SCM_STR + (p + 1) + (k + 1) ∧
      m'.trace = m.trace ++ pllSetupEvents ++ pllPolls mcu (m.nreads .SCM_STR) (p + 1) ++
        .wr .SCM_CTL 0b01010000 ::
          switchPolls mcu 0b01010000 (m.nreads .SCM_STR + (p + 1)) (k + 1) := by
  obtain ⟨m1, e1, _, hc1, ht1⟩ := wait_pll_ready_returns fuel p mcu (pllSetup m) hp hn hr
  have hc2 : (m1.write .SCM_CTL 0b01010000).nreads .SCM_STR = m.nreads .SCM_STR + (p + 1) := hc1
  have hv2 : (m1.write .SCM_CTL 0b01010000).regs .SCM_CTL = 0b01010000 := by simp
  obtain ⟨m2, e2, _, hcnt, ht2⟩ :=
    wait_clock_switch_returns fuel k mcu (m1.write .SCM_CTL 0b01010000) hk
      (fun j hj => by
        rw [hc2, hv2]
        intro hc
        exact hs j hj ((mask_eq_iff _ _).1 hc))
      (by rw [hc2, hv2]; exact (mask_eq_iff _ _).2 hm)
  refine ⟨m2, ?_, ?_, ?_⟩
  · rw [init_clock_eq, e1]; exact e2
  · rw [hcnt, hc2]
  · rw [ht2, hc2, hv2, write_trace, ht1, pllSetup_trace]
    simp [pllSetup_nreads]

/-- `init_clock_lc` while its loop has found no match. -/
theorem init_clock_lc_spinning (fuel : Nat) (mcu : Mcu) (m : Machine)
    (hs : ∀ j, j < fuel → RCS (mcu.status .SCM_STR (m.nreads .SCM_STR + j)) ≠ 0b100) :
    ∃ m', init_clock_lc fuel mcu m = .spinning m' ∧
      m'.nreads .SCM_STR = m.nreads .SCM_STR + fuel ∧
      m'.trace = m.trace ++ lcSetupEvents ++
        switchPolls mcu 0b10000000 (m.nreads .SCM_STR) fuel := by
  obtain ⟨m2, e2, _, hcnt, ht2⟩ :=
    wait_clock_switch_spins fuel mcu (lcSetup m)
      (fun j hj => by
        rw [lcSetup_regs_SCM_CTL, lcSetup_nreads]
        intro hc
        exact hs j hj ((mask_eq_iff _ _).1 hc))
  refine ⟨m2, ?_, ?_, ?_⟩
  · rw [init_clock_lc_eq]; exact e2
  · rw [hcnt, lcSetup_nreads]
  · rw [ht2, lcSetup_regs_SCM_CTL, lcSetup_nreads, lcSetup_trace]

/-- `init_clock_lc` when the status source field first reads `0b100` at poll
`k`. -/
theorem init_clock_lc_returns (fuel k : Nat) (mcu : Mcu) (m : Machine) (hk : k < fuel)
    (hs : ∀ j, j < k → RCS (mcu.status .SCM_STR (m.nreads .SCM_STR + j)) ≠ 0b100)
    (hm : RCS (mcu.status .SCM_STR (m.nreads .SCM_STR + k)) = 0b100) :
    ∃ m', init_clock_lc fuel mcu m = .returned m' ∧
      m'.nreads .SCM_STR = m.nreads .SCM_STR + (k + 1) ∧
      m'.trace = m.trace ++ lcSetupEvents ++
        switchPolls mcu 0b10000000 (m.nreads .SCM_STR) (k + 1) := by
  obtain ⟨m2, e2, _, hcnt, ht2⟩ :=
    wait_clock_switch_returns fuel k mcu (lcSetup m) hk
      (fun j hj => by
        rw [lcSetup_regs_SCM_CTL, lcSetup_nreads]
        intro hc
        exact hs j hj ((mask_eq_iff _ _).1 hc))
      (by rw [lcSetup_regs_SCM_CTL, lcSetup_nreads]; exact (mask_eq_iff _ _).2 hm)
  refine ⟨m2, ?_, ?_, ?_⟩
  · rw [init_clock_lc_eq]; exact e2
  · rw [hcnt, lcSetup_nreads]
  · rw [ht2, lcSetup_regs_SCM_CTL, lcSetup_nreads, lcSetup_trace]

/-- Whatever the hardware and the bound, the clock-switch loop only adds
polls to the trace. -/
theorem wait_clock_switch_trace :
    ∀ (fuel : Nat) (mcu : Mcu) (m : Machine),
      ∃ k, (wait_clock_switch fuel mcu m).machine.trace =
        m.trace ++ switchPolls mcu (m.regs .SCM_CTL) (m.nreads .SCM_STR) k
  | 0, mcu, m => ⟨0, by simp [wait_clock_switch, Outcome.machine, switchPolls]⟩
  | fuel + 1, mcu, m => by
    have hm1 : ((m.read mcu .SCM_CTL).2.read mcu .SCM_STR).2.nreads .SCM_STR
        = m.nreads .SCM_STR + 1 := by simp
    have hc1 : ((m.read mcu .SCM_CTL).2.read mcu .SCM_STR).2.regs = m.regs := rfl
    simp only [wait_clock_switch]
    split
    · obtain ⟨k, hk⟩ :=
        wait_clock_switch_trace fuel mcu ((m.read mcu .SCM_CTL).2.read mcu .SCM_STR).2
      refine ⟨k + 1, ?_⟩
      rw [hk, hm1, hc1]
      simp [switchPolls, peek_SCM_STR, peek_SCM_CTL]
    · refine ⟨1, ?_⟩
      simp [Outcome.machine, switchPolls, peek_SCM_STR, peek_SCM_CTL]

/-- Trace of `init_clock` once `PLRDY` has been read set at poll `p`. -/
theorem init_clock_after_pll (fuel p : Nat) (mcu : Mcu) (m : Machine) (hp : p < fuel)
    (hn : ∀ j, j < p →
      (mcu.status .SCM_STR (m.nreads .SCM_STR + j)).testBit mcu.PLRDY = false)
    (hr : (mcu.status .SCM_STR (m.nreads .SCM_STR + p)).testBit mcu.PLRDY = true) :
    ∃ k, (init_clock fuel mcu m).machine.trace =
      m.trace ++ pllSetupEvents ++ pllPolls mcu (m.nreads .SCM_STR) (p + 1) ++
        .wr .SCM_CTL 0b01010000 ::
          switchPolls mcu 0b01010000 (m.nreads .SCM_STR + (p + 1)) k := by
  obtain ⟨m1, e1, _, hc1, ht1⟩ := wait_pll_ready_returns fuel p mcu (pllSetup m) hp hn hr
  have hc2 : (m1.write .SCM_CTL 0b01010000).nreads .SCM_STR = m.nreads .SCM_STR + (p + 1) := hc1
  have hv2 : (m1.write .SCM_CTL 0b01010000).regs .SCM_CTL = 0b01010000 := by simp
  obtain ⟨k, hk⟩ := wait_clock_switch_trace fuel mcu (m1.write .SCM_CTL 0b01010000)
  refine ⟨k, ?_⟩
  rw [init_clock_eq, e1]
  simp only [Outcome.bind]
  rw [hk, hc2, hv2, write_trace, ht1, pllSetup_trace]
  simp [pllSetup_nreads]

/-- Shape of every trace of `init_clock` run from entry: either the set-up
writes followed by polls that all read `PLRDY` clear, or the set-up writes,
polls of which only the last read `PLRDY` set, the select write, and polls of
the clock-switch loop. -/
theorem init_clock_shape (fuel : Nat) (mcu : Mcu) (regs : Reg → Nat) :
    (∃ n, (init_clock fuel mcu (Machine.boot regs)).machine.trace =
        pllSetupEvents ++ pllPolls mcu 0 n ∧
      (init_clock fuel mcu (Machine.boot regs)).isReturned = false ∧
      ∀ j, j < n → (mcu.status .SCM_STR j).testBit mcu.PLRDY = false) ∨
    (∃ p k, (init_clock fuel mcu (Machine.boot regs)).machine.trace =
        pllSetupEvents ++ pllPolls mcu 0 (p + 1) ++
          .wr .SCM_CTL 0b01010000 :: switchPolls mcu 0b01010000 (p + 1) k ∧
      (∀ j, j < p → (mcu.status .SCM_STR j).testBit mcu.PLRDY = false) ∧
      (mcu.status .SCM_STR p).testBit mcu.PLRDY = true) := by
  have hb : (Machine.boot regs).nreads .SCM_STR = 0 := rfl
  have ht : (Machine.boot regs).trace = [] := rfl
  by_cases h : ∃ p, p < fuel ∧ (mcu.status .SCM_STR p).testBit mcu.PLRDY = true
  · right
    have hlt := (Nat.find_spec h).1
    have hset := (Nat.find_spec h).2
    have hmin : ∀ j, j < Nat.find h → (mcu.status .SCM_STR j).testBit mcu.PLRDY = false := by
      intro j hj
      have := Nat.find_min h hj
      simp only [not_and] at this
      simpa using this (Nat.lt_trans hj hlt)
    obtain ⟨k, hk⟩ := init_clock_after_pll fuel (Nat.find h) mcu (Machine.boot regs) hlt
      (fun j hj => by rw [hb, Nat.zero_add]; exact hmin j hj)
      (by rw [hb, Nat.zero_add]; exact hset)
    refine ⟨Nat.find h, k, ?_, hmin, hset⟩
    rw [hk, hb, ht, Nat.zero_add]; rfl
  · left
    have hall : ∀ j, j < fuel → (mcu.status .SCM_STR j).testBit mcu.PLRDY = false := by
      intro j hj
      by_contra hc
      exact h ⟨j, hj, by simpa using hc⟩
    obtain ⟨m', e, _, htr⟩ := init_clock_pll_spinning fuel mcu (Machine.boot regs)
      (fun j hj => by rw [hb, Nat.zero_add]; exact hall j hj)
    refine ⟨fuel, ?_, ?_, hall⟩
    · rw [e]; simp only [Outcome.machine]; rw [htr, hb, ht]; rfl
    · rw [e]; rfl

/-- Shape of every trace of `init_clock_lc` run from entry: its nine writes
followed by polls of the clock-switch loop. -/
theorem init_clock_lc_shape (fuel : Nat) (mcu : Mcu) (regs : Reg → Nat) :
    ∃ k, (init_clock_lc fuel mcu (Machine.boot regs)).machine.trace =
      lcSetupEvents ++ switchPolls mcu 0b10000000 0 k := by
  obtain ⟨k, hk⟩ := wait_clock_switch_trace fuel mcu (lcSetup (Machine.boot regs))
  refine ⟨k, ?_⟩
  rw [init_clock_lc_eq, hk, lcSetup_regs_SCM_CTL, lcSetup_nreads, lcSetup_trace]
  rfl

theorem switchPolls_reg (mcu : Mcu) (c : Nat) :
    ∀ (k n : Nat) (e : Event), e ∈ switchPolls mcu c n k →
      e.reg = .SCM_STR ∨ e.reg = .SCM_CTL
  | 0, _, _, h => by simp [switchPolls] at h
  | k + 1, n, e, h => by
    simp only [switchPolls, List.mem_cons] at h
    rcases h with h | h | h
    · rw [h]; exact Or.inr rfl
    · rw [h]; exact Or.inl rfl
    · exact switchPolls_reg mcu c k (n + 1) e h

theorem switchPolls_not_write (mcu : Mcu) (c k n : Nat) :
    ∀ e ∈ switchPolls mcu c n k, e.isWrite = false := by
  intro e he
  obtain ⟨r, v, hv⟩ := switchPolls_isRead mcu c k n e he
  rw [hv]; rfl

theorem pllPolls_not_write (mcu : Mcu) (k n : Nat) :
    ∀ e ∈ pllPolls mcu n k, e.isWrite = false := by
  intro e he
  obtain ⟨v, hv⟩ := pllPolls_isRead mcu k n e he
  rw [hv]; rfl

/-! ## Traces: last write, splitting at an event -/

theorem lastWrite_reads (r : Reg) :
    ∀ (b : List Event), (∀ e ∈ b, e.isWrite = false) → lastWrite r b = none
  | [], _ => rfl
  | e :: b, h => by
    have hb := lastWrite_reads r b (fun x hx => h x (List.mem_cons_of_mem _ hx))
    have he := h e (List.mem_cons_self _ _)
    cases e with
    | rd x v => simp [lastWrite, hb]
    | wr x v => simp [Event.isWrite] at he

theorem lastWrite_append_none (r : Reg) (b : List Event) (h : lastWrite r b = none) :
    ∀ (a : List Event), lastWrite r (a ++ b) = lastWrite r a
  | [] => by simp [h, lastWrite]
  | e :: a => by simp [lastWrite, lastWrite_append_none r b h a]

theorem lastWrite_cons_other (r x : Reg) (v : Nat) (b : List Event) (hx : x ≠ r)
    (h : lastWrite r b = none) : lastWrite r (Event.wr x v :: b) = none := by
  simp [lastWrite, h, hx]

/-- If `x` does not occur in `A`, a split of `A ++ B` at an occurrence of `x`
falls inside `B`. -/
theorem split_after (x : Event) (B : List Event) :
    ∀ (A pre post : List Event), x ∉ A → A ++ B = pre ++ x :: post →
      ∃ c, pre = A ++ c ∧ B = c ++ x :: post
  | [], pre, post, _, h => ⟨pre, rfl, h⟩
  | a :: A, [], post, hx, h => by
    simp only [List.cons_append, List.nil_append, List.cons.injEq] at h
    exact absurd (h.1 ▸ List.mem_cons_self _ _) hx
  | a :: A, y :: pre, post, hx, h => by
    simp only [List.cons_append, List.cons.injEq] at h
    obtain ⟨c, hc, hB⟩ := split_after x B A pre post
      (fun hm => hx (List.mem_cons_of_mem _ hm)) h.2
    exact ⟨c, by rw [h.1, hc]; rfl, hB⟩

/-- If `x` occurs in `A ++ x :: B` only at the place shown, every split at
`x` is that one. -/
theorem split_unique (x : Event) (A B pre post : List Event) (hA : x ∉ A) (hB : x ∉ B)
    (h : A ++ x :: B = pre ++ x :: post) : pre = A ∧ post = B := by
  obtain ⟨c, hc, hs⟩ := split_after x (x :: B) A pre post hA h
  cases c with
  | nil =>
    simp only [List.nil_append, List.cons.injEq, true_and] at hs
    exact ⟨by simpa using hc, hs.symm⟩
  | cons y c =>
    simp only [List.cons_append, List.cons.injEq] at hs
    exact absurd (hs.2 ▸ List.mem_append_right c (List.mem_cons_self _ _)) hB

theorem pllPolls_mem (mcu : Mcu) :
    ∀ (k n j : Nat), j < k → Event.rd .SCM_STR (mcu.status .SCM_STR (n + j)) ∈ pllPolls mcu n k
  | 0, _, _, h => absurd h (Nat.not_lt_zero _)
  | k + 1, n, 0, _ => by simp [pllPolls]
  | k + 1, n, j + 1, h => by
    have := pllPolls_mem mcu k (n + 1) j (Nat.lt_of_succ_lt_succ h)
    rw [Nat.add_assoc, Nat.add_comm 1 j] at this
    exact List.mem_cons_of_mem _ this

/-- Where `init_clock` writes `SCM_CTL`: every such write is the PLL-enable
write `0b00010000` of the set-up, or the select write `0b01010000`, which is
preceded by exactly the set-up and the polls of `PLRDY` (the last one reading
it set) and followed by polls of the clock-switch loop only. -/
theorem init_clock_split_SCM_CTL (fuel : Nat) (mcu : Mcu) (regs : Reg → Nat)
    (pre post : List Event) (v : Nat)
    (h : (init_clock fuel mcu (Machine.boot regs)).machine.trace =
      pre ++ .wr .SCM_CTL v :: post) :
    v = 0b00010000 ∨
    (v = 0b01010000 ∧ ∃ p k, pre = pllSetupEvents ++ pllPolls mcu 0 (p + 1) ∧
      post = switchPolls mcu 0b01010000 (p + 1) k ∧
      (mcu.status .SCM_STR p).testBit mcu.PLRDY = true) := by
  have hmem : Event.wr .SCM_CTL v ∈ (init_clock fuel mcu (Machine.boot regs)).machine.trace := by
    rw [h]; simp
  have hsetup : Event.wr .SCM_CTL v ∈ pllSetupEvents → v = 0b00010000 := by
    intro hm; simpa [pllSetupEvents] using hm
  rcases init_clock_shape fuel mcu regs with ⟨n, hE, _, _⟩ | ⟨p, k, hE, _, hset⟩
  · left
    rw [hE] at hmem
    rcases List.mem_append.1 hmem with hm | hm
    · exact hsetup hm
    · obtain ⟨s, hs⟩ := pllPolls_isRead mcu n 0 _ hm
      cases hs
  · rw [hE] at hmem h
    rcases List.mem_append.1 hmem with hm | hm
    · rcases List.mem_append.1 hm with hm | hm
      · exact Or.inl (hsetup hm)
      · obtain ⟨s, hs⟩ := pllPolls_isRead mcu (p + 1) 0 _ hm
        cases hs
    · rcases List.mem_cons.1 hm with hm | hm
      · have hv : v = 0b01010000 := by injection hm
        subst hv
        right
        have hA : Event.wr .SCM_CTL 0b01010000 ∉ pllSetupEvents ++ pllPolls mcu 0 (p + 1) := by
          intro hc
          rcases List.mem_append.1 hc with hc | hc
          · revert hc; decide
          · obtain ⟨s, hs⟩ := pllPolls_isRead mcu (p + 1) 0 _ hc
            cases hs
        have hB : Event.wr .SCM_CTL 0b01010000 ∉ switchPolls mcu 0b01010000 (p + 1) k := by
          intro hc
          obtain ⟨r, s, hs⟩ := switchPolls_isRead mcu _ k (p + 1) _ hc
          cases hs
        obtain ⟨h1, h2⟩ := split_unique _ _ _ pre post hA hB h
        exact ⟨rfl, p, k, h1, h2, hset⟩
      · obtain ⟨r, s, hs⟩ := switchPolls_isRead mcu _ k (p + 1) _ hm
        cases hs

/-- Where `init_clock_lc` writes `SCM_CTL`: only once, the value `0b10000000`,
as the last of its nine writes, followed by polls only. -/
theorem init_clock_lc_split_SCM_CTL (fuel : Nat) (mcu : Mcu) (regs : Reg → Nat)
    (pre post : List Event) (v : Nat)
    (h : (init_clock_lc fuel mcu (Machine.boot regs)).machine.trace =
      pre ++ .wr .SCM_CTL v :: post) :
    v = 0b10000000 ∧ pre = lcSetupEvents.take 8 ∧
      ∃ k, post = switchPolls mcu 0b10000000 0 k := by
  obtain ⟨k, hE⟩ := init_clock_lc_shape fuel mcu regs
  have hmem : Event.wr .SCM_CTL v ∈ (init_clock_lc fuel mcu (Machine.boot regs)).machine.trace := by
    rw [h]; simp
  rw [hE] at hmem h
  have hv : v = 0b10000000 := by
    rcases List.mem_append.1 hmem with hm | hm
    · simpa [lcSetupEvents] using hm
    · obtain ⟨r, s, hs⟩ := switchPolls_isRead mcu _ k 0 _ hm
      cases hs
  subst hv
  have hB : Event.wr .SCM_CTL 0b10000000 ∉ switchPolls mcu 0b10000000 0 k := by
    intro hc
    obtain ⟨r, s, hs⟩ := switchPolls_isRead mcu _ k 0 _ hc
    cases hs
  have hsplit : lcSetupEvents ++ switchPolls mcu 0b10000000 0 k =
      lcSetupEvents.take 8 ++ Event.wr .SCM_CTL 0b10000000 :: switchPolls mcu 0b10000000 0 k := by
    simp [lcSetupEvents]
  rw [hsplit] at h
  obtain ⟨h1, h2⟩ := split_unique _ _ _ pre post (by decide) hB h
  exact ⟨rfl, h1, k, h2⟩

theorem lastWrite_other (r : Reg) :
    ∀ (b : List Event), (∀ e ∈ b, e.reg ≠ r) → lastWrite r b = none
  | [], _ => rfl
  | e :: b, h => by
    have hb := lastWrite_other r b (fun x hx => h x (List.mem_cons_of_mem _ hx))
    have he := h e (List.mem_cons_self _ _)
    cases e with
    | rd x v => simp [lastWrite, hb]
    | wr x v =>
      have hx : x ≠ r := he
      simp [lastWrite, hb, hx]

/-- After its set-up writes `init_clock` accesses only `SCM_STR` and
`SCM_CTL`. -/
theorem init_clock_tail (fuel : Nat) (mcu : Mcu) (regs : Reg → Nat) :
    ∃ X, (init_clock fuel mcu (Machine.boot regs)).machine.trace = pllSetupEvents ++ X ∧
      ∀ e ∈ X, e.reg = .SCM_STR ∨ e.reg = .SCM_CTL := by
  rcases init_clock_shape fuel mcu regs with ⟨n, hE, _, _⟩ | ⟨p, k, hE, _, _⟩
  · refine ⟨pllPolls mcu 0 n, hE, ?_⟩
    intro e he
    obtain ⟨v, hv⟩ := pllPolls_isRead mcu n 0 e he
    rw [hv]; exact Or.inl rfl
  · refine ⟨pllPolls mcu 0 (p + 1) ++
      .wr .SCM_CTL 0b01010000 :: switchPolls mcu 0b01010000 (p + 1) k, ?_, ?_⟩
    · rw [hE, List.append_assoc]
    · intro e he
      rcases List.mem_append.1 he with hm | hm
      · obtain ⟨v, hv⟩ := pllPolls_isRead mcu (p + 1) 0 e hm
        rw [hv]; exact Or.inl rfl
      · rcases List.mem_cons.1 hm with hm | hm
        · rw [hm]; exact Or.inr rfl
        · exact switchPolls_reg mcu _ k (p + 1) e hm

/-- After its writes `init_clock_lc` accesses only `SCM_STR` and `SCM_CTL`. -/
theorem init_clock_lc_tail (fuel : Nat) (mcu : Mcu) (regs : Reg → Nat) :
    ∃ X, (init_clock_lc fuel mcu (Machine.boot regs)).machine.trace = lcSetupEvents ++ X ∧
      ∀ e ∈ X, e.reg = .SCM_STR ∨ e.reg = .SCM_CTL := by
  obtain ⟨k, hE⟩ := init_clock_lc_shape fuel mcu regs
  exact ⟨_, hE, switchPolls_reg mcu _ k 0⟩

/-! ## Traces of `main` -/

theorem do_blink_trace (mcu : Mcu) (m : Machine) :
    ∃ a b c d, (do_blink mcu m).trace =
      m.trace ++ [.rd .PDOR5 a, .wr .PDOR5 b, .rd .PDOR5 c, .wr .PDOR5 d] := by
  simp only [do_blink, delay_eq, Machine.writeBit, write_trace, read_trace,
    List.append_assoc, List.singleton_append]
  exact ⟨_, _, _, _, rfl⟩

/-- The blink loop never exits and accesses `PDOR5` only. -/
theorem main_loop_trace :
    ∀ (n : Nat) (mcu : Mcu) (m : Machine),
      ∃ T, (main_loop n mcu m).machine.trace = m.trace ++ T ∧
        (∀ e ∈ T, e.reg = .PDOR5) ∧ (main_loop n mcu m).isReturned = false ∧
        (0 < n → ∃ v, Event.wr .PDOR5 v ∈ T)
  | 0, mcu, m => ⟨[], by simp [main_loop, Outcome.machine], by simp, rfl,
      fun h => absurd h (Nat.lt_irrefl 0)⟩
  | n + 1, mcu, m => by
    obtain ⟨a, b, c, d, hb⟩ := do_blink_trace mcu m
    obtain ⟨T, hT, hreg, hret, _⟩ := main_loop_trace n mcu (do_blink mcu m)
    refine ⟨[.rd .PDOR5 a, .wr .PDOR5 b, .rd .PDOR5 c, .wr .PDOR5 d] ++ T, ?_, ?_, ?_, ?_⟩
    · simp only [main_loop]
      rw [hT, hb, List.append_assoc]
    · intro e he
      rcases List.mem_append.1 he with h | h
      · simp only [List.mem_cons, List.mem_singleton, List.not_mem_nil, or_false] at h
        rcases h with h | h | h | h <;> rw [h] <;> rfl
      · exact hreg e h
    · simpa only [main_loop] using hret
    · intro _
      exact ⟨b, by simp⟩

/-- Shape of every trace of `main` run from entry: either unlock rounds only
(the watchdog lock has not read 0 yet), or the unlock rounds, the read of
`WDG_LCK` returning 0, the writes `WDG_CTL = 0` and `DDR5 = 0xFF`, and then
accesses to `PDOR5` only. -/
theorem main_shape (fuel : Nat) (mcu : Mcu) (regs : Reg → Nat) :
    ((main fuel mcu (Machine.boot regs)).machine.trace = unlockRounds mcu 0 fuel ∧
      (main fuel mcu (Machine.boot regs)).isReturned = false ∧
      ∀ j, j < fuel → mcu.status .WDG_LCK j ≠ 0) ∨
    (∃ k T, (main fuel mcu (Machine.boot regs)).machine.trace =
        (unlockRounds mcu 0 k ++ [.rd .WDG_LCK 0, .wr .WDG_CTL 0, .wr .DDR5 0xFF]) ++ T ∧
      (∀ e ∈ T, e.reg = .PDOR5) ∧ (∃ v, Event.wr .PDOR5 v ∈ T) ∧
      (main fuel mcu (Machine.boot regs)).isReturned = false ∧
      k < fuel ∧ (∀ j, j < k → mcu.status .WDG_LCK j ≠ 0) ∧ mcu.status .WDG_LCK k = 0) := by
  have hb : (Machine.boot regs).nreads .WDG_LCK = 0 := rfl
  have ht : (Machine.boot regs).trace = [] := rfl
  by_cases h : ∃ k, k < fuel ∧ mcu.status .WDG_LCK k = 0
  · right
    have hlt := (Nat.find_spec h).1
    have hz := (Nat.find_spec h).2
    have hmin : ∀ j, j < Nat.find h → mcu.status .WDG_LCK j ≠ 0 := by
      intro j hj hc
      exact Nat.find_min h hj ⟨Nat.lt_trans hj hlt, hc⟩
    obtain ⟨m1, e1, ht1⟩ := init_watchdog_loop_returns fuel (Nat.find h) mcu (Machine.boot regs)
      hlt (fun j hj => by rw [hb, Nat.zero_add]; exact hmin j hj)
      (by rw [hb, Nat.zero_add]; exact hz)
    obtain ⟨T, hT, hreg, hret, hex⟩ :=
      main_loop_trace fuel mcu ((m1.write .WDG_CTL 0).write .DDR5 0xFF)
    have hmain : main fuel mcu (Machine.boot regs) =
        main_loop fuel mcu ((m1.write .WDG_CTL 0).write .DDR5 0xFF) := by
      simp [main, init, init_watchdog, e1, Outcome.bind]
    refine ⟨Nat.find h, T, ?_, hreg, hex (Nat.lt_of_le_of_lt (Nat.zero_le _) hlt), ?_, hlt,
      hmin, hz⟩
    · rw [hmain, hT, write_trace, write_trace, ht1, hb, ht]
      simp
    · rw [hmain]; exact hret
  · left
    have hall : ∀ j, j < fuel → mcu.status .WDG_LCK j ≠ 0 := fun j hj hc => h ⟨j, hj, hc⟩
    obtain ⟨m1, e1, ht1⟩ := init_watchdog_loop_spins fuel mcu (Machine.boot regs)
      (fun j hj => by rw [hb, Nat.zero_add]; exact hall j hj)
    have hmain : main fuel mcu (Machine.boot regs) = .spinning m1 := by
      simp [main, init, init_watchdog, e1, Outcome.bind]
    refine ⟨?_, ?_, hall⟩
    · rw [hmain]; simp only [Outcome.machine]; rw [ht1, hb, ht]; rfl
    · rw [hmain]; rfl

/-! ## Claims -/

/-- C1: whenever `init_clock` returns, whatever the initial registers and the
hardware's status reads, the register file ends with `SCM_CTL = 0b01010000`
(source field `RCS = 0b010`, PLL enable bit 4 set, sub- and main-oscillator
enable bits 3 and 1 clear), `PLL_CTL1 = 0`, `PLL_CTL2 = 4`,
`MCR_FTRM = 0b0110011001` (coarse `0b01100`, fine `0b11001`) and the prescalers
`BSC_PSR = 0`, `APBC0_PSR = 0`, `APBC1_PSR = APBC2_PSR = SWC_PSR = 0x80`. -/
theorem init_clock_final_registers (fuel : Nat) (mcu : Mcu) (m m' : Machine)
    (h : init_clock fuel mcu m = .returned m') :
    m'.regs .SCM_CTL = 0b01010000 ∧ RCS (m'.regs .SCM_CTL) = 0b010 ∧
    (m'.regs .SCM_CTL).testBit 4 = true ∧ (m'.regs .SCM_CTL).testBit 3 = false ∧
    (m'.regs .SCM_CTL).testBit 1 = false ∧
    m'.regs .PLL_CTL1 = 0x00 ∧ m'.regs .PLL_CTL2 = 4 ∧
    m'.regs .MCR_FTRM = 0b0110011001 ∧ m'.regs .MCR_FTRM / 32 = 0b01100 ∧
    m'.regs .MCR_FTRM % 32 = 0b11001 ∧
    m'.regs .BSC_PSR = 0x00 ∧ m'.regs .APBC0_PSR = 0x00 ∧ m'.regs .APBC1_PSR = 0x80 ∧
    m'.regs .APBC2_PSR = 0x80 ∧ m'.regs .SWC_PSR = 0x80 := by
  rw [init_clock_eq] at h
  have h1 := wait_pll_ready_regs fuel mcu (pllSetup m)
  cases hp : wait_pll_ready fuel mcu (pllSetup m) with
  | spinning m1 => rw [hp] at h; simp [Outcome.bind] at h
  | returned m1 =>
    rw [hp] at h h1
    simp only [Outcome.bind] at h
    have h2 := wait_clock_switch_regs fuel mcu (m1.write .SCM_CTL 0b01010000)
    rw [h] at h2
    simp only [Outcome.machine] at h1 h2
    have key : ∀ x, m'.regs x = if x = Reg.SCM_CTL then 0b01010000 else (pllSetup m).regs x := by
      intro x; rw [h2, write_regs, h1]
    simp [key, pllSetup, BITS, RCS, Nat.testBit]

/-- Witness for C1: on a hardware whose status always reads `0x50`, `init_clock`
returns after one poll of each loop, with the stated register values. -/
theorem init_clock_final_registers_witness :
    (init_clock 1 (constMcu 0x50) (Machine.boot fun _ => 0)).isReturned = true ∧
    (init_clock 1 (constMcu 0x50) (Machine.boot fun _ => 0)).machine.regs .SCM_CTL
      = 0b01010000 ∧
    (init_clock 1 (constMcu 0x50) (Machine.boot fun _ => 0)).machine.regs .MCR_FTRM
      = 0b0110011001 :=
  ⟨by decide,
   (init_clock_final_registers 1 (constMcu 0x50) (Machine.boot fun _ => 0)
      (init_clock 1 (constMcu 0x50) (Machine.boot fun _ => 0)).machine rfl).1,
   (init_clock_final_registers 1 (constMcu 0x50) (Machine.boot fun _ => 0)
      (init_clock 1 (constMcu 0x50) (Machine.boot fun _ => 0)).machine
      rfl).2.2.2.2.2.2.2.1⟩

/-- C2: whenever `init_clock_lc` returns, whatever the prior register state
(also one with the PLL enabled and selected), the register file ends with
`SCM_CTL = 0b10000000`, i.e. source field `RCS = 0b100` (low-speed CR) with the
PLL-enable (bit 4), sub-oscillator-enable (bit 3) and main-oscillator-enable
(bit 1) bits all clear, and `MCR_FTRM = 0` (coarse and fine trim both zero). -/
theorem init_clock_lc_final_registers (fuel : Nat) (mcu : Mcu) (m m' : Machine)
    (h : init_clock_lc fuel mcu m = .returned m') :
    m'.regs .SCM_CTL = 0b10000000 ∧ RCS (m'.regs .SCM_CTL) = 0b100 ∧
    (m'.regs .SCM_CTL).testBit 4 = false ∧ (m'.regs .SCM_CTL).testBit 3 = false ∧
    (m'.regs .SCM_CTL).testBit 1 = false ∧
    m'.regs .MCR_FTRM = 0 ∧ m'.regs .MCR_FTRM / 32 = 0 ∧ m'.regs .MCR_FTRM % 32 = 0 := by
  rw [init_clock_lc_eq] at h
  have h2 := wait_clock_switch_regs fuel mcu (lcSetup m)
  rw [h] at h2
  simp only [Outcome.machine] at h2
  simp [h2, lcSetup, BITS, RCS, Nat.testBit]

/-- Witness for C2: from a register file in which the PLL is enabled and
selected (`SCM_CTL = 0x50`) and on a hardware whose status always reads `0x80`,
`init_clock_lc` returns with `SCM_CTL = 0x80` and `MCR_FTRM = 0`. -/
theorem init_clock_lc_final_registers_witness :
    (init_clock_lc 1 (constMcu 0x80) (Machine.boot fun _ => 0x50)).isReturned = true ∧
    (init_clock_lc 1 (constMcu 0x80) (Machine.boot fun _ => 0x50)).machine.regs .SCM_CTL
      = 0b10000000 ∧
    (init_clock_lc 1 (constMcu 0x80) (Machine.boot fun _ => 0x50)).machine.regs .MCR_FTRM
      = 0 :=
  ⟨by decide,
   (init_clock_lc_final_registers 1 (constMcu 0x80) (Machine.boot fun _ => 0x50)
      (init_clock_lc 1 (constMcu 0x80) (Machine.boot fun _ => 0x50)).machine rfl).1,
   (init_clock_lc_final_registers 1 (constMcu 0x80) (Machine.boot fun _ => 0x50)
      (init_clock_lc 1 (constMcu 0x80) (Machine.boot fun _ => 0x50)).machine
      rfl).2.2.2.2.2.1⟩

/-- C8: `init_watchdog(onoff)`, run from entry on any hardware.
(1) If the first read of `WDG_LCK` returning 0 is read number `k` (counting
from 0), then with any loop bound above `k` the function returns and its
accesses are exactly: for each of the `k` earlier reads, the read followed by
the writes of `0x1ACCE551` and then `0xE5331AAE` to `WDG_LCK`; then the read
returning 0; then one write of `onoff` (0 or 1) to `WDG_CTL`.  So `WDG_CTL` is
written exactly once, last, right after the read that returned 0, and for
`k = 0` no key word is written.
(2) As long as every read of `WDG_LCK` has returned non-zero the function has
not returned and has accessed nothing but `WDG_LCK`; in particular, if
`WDG_LCK` never reads 0 it never returns and never writes `WDG_CTL`.
(3) The second key word is the 32-bit complement of the first. -/
theorem init_watchdog_unlock_protocol (mcu : Mcu) (onoff : Bool) (regs : Reg → Nat) :
    (∀ k, (∀ j, j < k → mcu.status .WDG_LCK j ≠ 0) → mcu.status .WDG_LCK k = 0 →
      ∀ fuel, k < fuel →
        ∃ m', init_watchdog fuel mcu onoff (Machine.boot regs) = .returned m' ∧
          m'.trace = unlockRounds mcu 0 k ++
            [.rd .WDG_LCK 0, .wr .WDG_CTL (if onoff then 1 else 0)] ∧
          (m'.trace.filter fun e => e.reg = .WDG_CTL) =
            [.wr .WDG_CTL (if onoff then 1 else 0)] ∧
          (k = 0 → m'.trace = [.rd .WDG_LCK 0, .wr .WDG_CTL (if onoff then 1 else 0)])) ∧
    (∀ fuel, (∀ j, j < fuel → mcu.status .WDG_LCK j ≠ 0) →
        ∃ m', init_watchdog fuel mcu onoff (Machine.boot regs) = .spinning m' ∧
          m'.trace = unlockRounds mcu 0 fuel ∧
          ∀ e ∈ m'.trace, e.reg = .WDG_LCK) ∧
    0xE5331AAE = 0xFFFFFFFF - 0x1ACCE551 := by
  refine ⟨?_, ?_, by decide⟩
  · intro k hn hz fuel hk
    obtain ⟨m1, e, ht⟩ := init_watchdog_loop_returns fuel k mcu (Machine.boot regs) hk
      (fun j hj => by simpa [Machine.boot] using hn j hj) (by simpa [Machine.boot] using hz)
    have ht1 : m1.trace = unlockRounds mcu 0 k ++ [.rd .WDG_LCK 0] := by
      simpa [Machine.boot] using ht
    refine ⟨m1.write .WDG_CTL (if onoff then 1 else 0), ?_, ?_, ?_, ?_⟩
    · simp [init_watchdog, e, Outcome.bind]
    · simp [ht1]
    · have hf : (unlockRounds mcu 0 k).filter (fun e => e.reg = .WDG_CTL) = [] := by
        rw [List.filter_eq_nil_iff]
        intro x hx
        simp [unlockRounds_reg mcu k 0 x hx]
      simp only [write_trace, ht1, List.filter_append, hf, List.nil_append]
      simp [List.filter, Event.reg]
    · intro hk0
      subst hk0
      simp [ht1, unlockRounds]
  · intro fuel hn
    obtain ⟨m1, e, ht⟩ := init_watchdog_loop_spins fuel mcu (Machine.boot regs)
      (fun j hj => by simpa [Machine.boot] using hn j hj)
    have ht1 : m1.trace = unlockRounds mcu 0 fuel := by simpa [Machine.boot] using ht
    refine ⟨m1, ?_, ht1, ?_⟩
    · simp [init_watchdog, e, Outcome.bind]
    · intro x hx
      rw [ht1] at hx
      exact unlockRounds_reg mcu fuel 0 x hx

/-- Witness for C8: `WDG_LCK` reads 1 once and 0 afterwards; `init_watchdog(1)`
makes one unlock round, reads 0 and writes `WDG_CTL = 1`. -/
theorem init_watchdog_unlock_protocol_witness :
    (∀ j, j < 1 → (stepMcu 1 1 0).status .WDG_LCK j ≠ 0) ∧
    (stepMcu 1 1 0).status .WDG_LCK 1 = 0 ∧
    (init_watchdog 2 (stepMcu 1 1 0) true (Machine.boot fun _ => 0)).machine.trace =
      [.rd .WDG_LCK 1, .wr .WDG_LCK 0x1ACCE551, .wr .WDG_LCK 0xE5331AAE,
       .rd .WDG_LCK 0, .wr .WDG_CTL 1] := by
  obtain ⟨m', e, ht, _⟩ :=
    (init_watchdog_unlock_protocol (stepMcu 1 1 0) true (fun _ => 0)).1 1
      (by decide) (by decide) 2 (by decide)
  refine ⟨by decide, by decide, ?_⟩
  rw [e]
  simpa [unlockRounds, Outcome.machine, stepMcu] using ht

/-- C4: the clock-switch wait ending `init_clock_lc` and `init_clock`, run from
entry on any hardware; reads of `SCM_STR` are numbered from 0.
(1) `init_clock_lc`: if the first read of `SCM_STR` whose bits 7..5 are `0b100`
is read `k`, then with any loop bound above `k` the function returns after
exactly `k + 1` polls (each a read of `SCM_CTL` then of `SCM_STR`).
(2) `init_clock_lc`: as long as no read had bits 7..5 equal to `0b100` the
function has not returned; so it never returns if that value never shows.
(3), (4) The same for `init_clock`, whose wait starts after the `p + 1` polls
of the PLL-ready loop and compares with `0b010`.
(5) The loop condition `(c & 0xE0) == (s & 0xE0)` compares bits 7..5. -/
theorem clock_switch_wait_first_match (mcu : Mcu) (regs : Reg → Nat) :
    (∀ k, (∀ j, j < k → RCS (mcu.status .SCM_STR j) ≠ 0b100) →
      RCS (mcu.status .SCM_STR k) = 0b100 → ∀ fuel, k < fuel →
        ∃ m', init_clock_lc fuel mcu (Machine.boot regs) = .returned m' ∧
          m'.nreads .SCM_STR = k + 1 ∧
          m'.trace = lcSetupEvents ++ switchPolls mcu 0b10000000 0 (k + 1)) ∧
    (∀ fuel, (∀ j, j < fuel → RCS (mcu.status .SCM_STR j) ≠ 0b100) →
        ∃ m', init_clock_lc fuel mcu (Machine.boot regs) = .spinning m' ∧
          m'.nreads .SCM_STR = fuel ∧
          m'.trace = lcSetupEvents ++ switchPolls mcu 0b10000000 0 fuel) ∧
    (∀ p k, (∀ j, j < p → (mcu.status .SCM_STR j).testBit mcu.PLRDY = false) →
      (mcu.status .SCM_STR p).testBit mcu.PLRDY = true →
      (∀ j, j < k → RCS (mcu.status .SCM_STR (p + 1 + j)) ≠ 0b010) →
      RCS (mcu.status .SCM_STR (p + 1 + k)) = 0b010 → ∀ fuel, p < fuel → k < fuel →
        ∃ m', init_clock fuel mcu (Machine.boot regs) = .returned m' ∧
          m'.nreads .SCM_STR = (p + 1) + (k + 1) ∧
          m'.trace = pllSetupEvents ++ pllPolls mcu 0 (p + 1) ++
            .wr .SCM_CTL 0b01010000 :: switchPolls mcu 0b01010000 (p + 1) (k + 1)) ∧
    (∀ p fuel, (∀ j, j < p → (mcu.status .SCM_STR j).testBit mcu.PLRDY = false) →
      (mcu.status .SCM_STR p).testBit mcu.PLRDY = true → p < fuel →
      (∀ j, j < fuel → RCS (mcu.status .SCM_STR (p + 1 + j)) ≠ 0b010) →
        ∃ m', init_clock fuel mcu (Machine.boot regs) = .spinning m' ∧
          m'.nreads .SCM_STR = (p + 1) + fuel ∧
          m'.trace = pllSetupEvents ++ pllPolls mcu 0 (p + 1) ++
            .wr .SCM_CTL 0b01010000 :: switchPolls mcu 0b01010000 (p + 1) fuel) ∧
    (∀ c s : Nat, (c &&& 0xE0) = (s &&& 0xE0) ↔ RCS c = RCS s) := by
  have hb : (Machine.boot regs).nreads .SCM_STR = 0 := rfl
  have ht : (Machine.boot regs).trace = [] := rfl
  refine ⟨?_, ?_, ?_, ?_, mask_eq_iff⟩
  · intro k hs hm fuel hk
    obtain ⟨m', e, hc, htr⟩ := init_clock_lc_returns fuel k mcu (Machine.boot regs) hk
      (fun j hj => by rw [hb, Nat.zero_add]; exact hs j hj)
      (by rw [hb, Nat.zero_add]; exact hm)
    exact ⟨m', e, by rw [hc, hb, Nat.zero_add], by rw [htr, hb, ht]; rfl⟩
  · intro fuel hs
    obtain ⟨m', e, hc, htr⟩ := init_clock_lc_spinning fuel mcu (Machine.boot regs)
      (fun j hj => by rw [hb, Nat.zero_add]; exact hs j hj)
    exact ⟨m', e, by rw [hc, hb, Nat.zero_add], by rw [htr, hb, ht]; rfl⟩
  · intro p k hn hr hs hm fuel hp hk
    obtain ⟨m', e, hc, htr⟩ := init_clock_returns fuel p k mcu (Machine.boot regs) hp hk
      (fun j hj => by rw [hb, Nat.zero_add]; exact hn j hj)
      (by rw [hb, Nat.zero_add]; exact hr)
      (fun j hj => by rw [hb, Nat.zero_add]; exact hs j hj)
      (by rw [hb, Nat.zero_add]; exact hm)
    exact ⟨m', e, by rw [hc, hb, Nat.zero_add], by rw [htr, hb, ht, Nat.zero_add]; rfl⟩
  · intro p fuel hn hr hp hs
    obtain ⟨m', e, hc, htr⟩ := init_clock_switch_spinning fuel p mcu (Machine.boot regs) hp
      (fun j hj => by rw [hb, Nat.zero_add]; exact hn j hj)
      (by rw [hb, Nat.zero_add]; exact hr)
      (fun j hj => by rw [hb, Nat.zero_add]; exact hs j hj)
    exact ⟨m', e, by rw [hc, hb, Nat.zero_add], by rw [htr, hb, ht, Nat.zero_add]; rfl⟩

/-- Witness for C4: `SCM_STR` reads `0x10` twice and `0x80` afterwards;
`init_clock_lc` returns after exactly three polls. -/
theorem clock_switch_wait_first_match_witness :
    (∀ j, j < 2 → RCS ((stepMcu 2 0x10 0x80).status .SCM_STR j) ≠ 0b100) ∧
    RCS ((stepMcu 2 0x10 0x80).status .SCM_STR 2) = 0b100 ∧
    (init_clock_lc 3 (stepMcu 2 0x10 0x80) (Machine.boot fun _ => 0)).isReturned = true ∧
    (init_clock_lc 3 (stepMcu 2 0x10 0x80) (Machine.boot fun _ => 0)).machine.nreads
      .SCM_STR = 3 ∧
    (init_clock_lc 2 (stepMcu 2 0x10 0x80) (Machine.boot fun _ => 0)).isReturned = false := by
  obtain ⟨m', e, hc, _⟩ :=
    (clock_switch_wait_first_match (stepMcu 2 0x10 0x80) (fun _ => 0)).1 2
      (by decide) (by decide) 3 (by decide)
  refine ⟨by decide, by decide, ?_, ?_, by decide⟩
  · rw [e]; rfl
  · rw [e]; exact hc

/-- C5: the PLL-ready wait of `init_clock`, run from entry on any hardware;
reads of `SCM_STR` are numbered from 0.
(1) If `PLRDY` first reads set at read `p`, i.e. on poll number `N = p + 1`,
then with any loop bound of at least `N` the accesses of `init_clock` are its
thirteen set-up writes, exactly `N` polls of `PLRDY`, then the write
`SCM_CTL = 0b01010000` selecting the PLL, then only reads.
(2) As long as every poll has read `PLRDY` clear, `init_clock` has not
returned and has made no access after its set-up writes but polls; it has not
written `SCM_CTL = 0b01010000`.  So with `PLRDY` never set the select write is
never reached, and with `PLRDY` first set on poll `N` it is not reached in
fewer than `N` polls. -/
theorem init_clock_pll_ready_wait (mcu : Mcu) (regs : Reg → Nat) :
    (∀ p, (∀ j, j < p → (mcu.status .SCM_STR j).testBit mcu.PLRDY = false) →
      (mcu.status .SCM_STR p).testBit mcu.PLRDY = true → ∀ fuel, p < fuel →
        ∃ rest, (init_clock fuel mcu (Machine.boot regs)).machine.trace =
            pllSetupEvents ++ pllPolls mcu 0 (p + 1) ++ .wr .SCM_CTL 0b01010000 :: rest ∧
          (pllPolls mcu 0 (p + 1)).length = p + 1 ∧
          (∀ e ∈ pllPolls mcu 0 (p + 1), ∃ v, e = .rd .SCM_STR v) ∧
          (∀ e ∈ rest, e.isWrite = false)) ∧
    (∀ fuel, (∀ j, j < fuel → (mcu.status .SCM_STR j).testBit mcu.PLRDY = false) →
        ∃ m', init_clock fuel mcu (Machine.boot regs) = .spinning m' ∧
          m'.nreads .SCM_STR = fuel ∧
          m'.trace = pllSetupEvents ++ pllPolls mcu 0 fuel ∧
          Event.wr .SCM_CTL 0b01010000 ∉ m'.trace) := by
  have hb : (Machine.boot regs).nreads .SCM_STR = 0 := rfl
  have ht : (Machine.boot regs).trace = [] := rfl
  constructor
  · intro p hn hr fuel hp
    obtain ⟨k, hk⟩ := init_clock_after_pll fuel p mcu (Machine.boot regs) hp
      (fun j hj => by rw [hb, Nat.zero_add]; exact hn j hj)
      (by rw [hb, Nat.zero_add]; exact hr)
    refine ⟨switchPolls mcu 0b01010000 (p + 1) k, ?_, pllPolls_length mcu (p + 1) 0,
      pllPolls_isRead mcu (p + 1) 0, switchPolls_not_write mcu _ k (p + 1)⟩
    rw [hk, hb, ht, Nat.zero_add]; rfl
  · intro fuel hn
    obtain ⟨m', e, hc, htr⟩ := init_clock_pll_spinning fuel mcu (Machine.boot regs)
      (fun j hj => by rw [hb, Nat.zero_add]; exact hn j hj)
    have htr' : m'.trace = pllSetupEvents ++ pllPolls mcu 0 fuel := by
      rw [htr, hb, ht]; rfl
    refine ⟨m', e, by rw [hc, hb, Nat.zero_add], htr', ?_⟩
    rw [htr']
    intro hmem
    rcases List.mem_append.1 hmem with h | h
    · revert h; decide
    · obtain ⟨v, hv⟩ := pllPolls_isRead mcu fuel 0 _ h
      cases hv

/-- Witness for C5: `SCM_STR` reads `0x00` twice and `0x50` afterwards, so
`PLRDY` (bit 4) is first set on the third poll; with a bound of two polls
`init_clock` is still spinning without the select write, with a bound of three
it has made exactly three `PLRDY` polls before the select write. -/
theorem init_clock_pll_ready_wait_witness :
    (∀ j, j < 2 → ((stepMcu 2 0 0x50).status .SCM_STR j).testBit (stepMcu 2 0 0x50).PLRDY
      = false) ∧
    ((stepMcu 2 0 0x50).status .SCM_STR 2).testBit (stepMcu 2 0 0x50).PLRDY = true ∧
    (∃ rest, (init_clock 3 (stepMcu 2 0 0x50) (Machine.boot fun _ => 0)).machine.trace =
      pllSetupEvents ++ [.rd .SCM_STR 0, .rd .SCM_STR 0, .rd .SCM_STR 0x50] ++
        .wr .SCM_CTL 0b01010000 :: rest) ∧
    Event.wr .SCM_CTL 0b01010000 ∉
      (init_clock 2 (stepMcu 2 0 0x50) (Machine.boot fun _ => 0)).machine.trace := by
  obtain ⟨rest, hrest, _⟩ :=
    (init_clock_pll_ready_wait (stepMcu 2 0 0x50) (fun _ => 0)).1 2
      (by decide) (by decide) 3 (by decide)
  exact ⟨by decide, by decide, ⟨rest, hrest⟩, by decide⟩

/-- C3: the trim sequence.  (1) For all coarse `c` and fine `f` in `[0,31]`,
`BITS(,,c,f)` with `c` and `f` spelled as five binary digits is `32*c + f`,
and the sequence unlock / write `MCR_FTRM` / lock (with or without the
`MCR_PSR` write of `init_clock` in between) leaves `MCR_FTRM = 32*c + f` and
`MCR_RLR = 0` in the register file.  (2) The first four accesses of
`init_clock` are that sequence for `01100`, `11001`, the first three of
`init_clock_lc` that sequence for `00000`, `00000`.  (3) `BITS(,,01100,11001)`
is `32*12 + 25 = 409` and `BITS(,,00000,00000)` is `0`.  (4) In every trace of
either function the last write to `MCR_FTRM` is that value and the last write
to `MCR_RLR` is `0`. -/
theorem trim_sequence_packs_and_relocks (fuel : Nat) (mcu : Mcu) (regs : Reg → Nat) :
    (∀ c f, c < 32 → f < 32 → ∀ m : Machine,
      BITS [] [] (digits5 c) (digits5 f) = 32 * c + f ∧
      (trim_sequence (digits5 c) (digits5 f) m).regs .MCR_FTRM = 32 * c + f ∧
      (trim_sequence (digits5 c) (digits5 f) m).regs .MCR_RLR = 0 ∧
      (trim_sequence_psr (digits5 c) (digits5 f) m).regs .MCR_FTRM = 32 * c + f ∧
      (trim_sequence_psr (digits5 c) (digits5 f) m).regs .MCR_RLR = 0) ∧
    ((init_clock fuel mcu (Machine.boot regs)).machine.trace.take 4 =
        (trim_sequence_psr (digits5 12) (digits5 25) (Machine.boot regs)).trace ∧
      (init_clock_lc fuel mcu (Machine.boot regs)).machine.trace.take 3 =
        (trim_sequence (digits5 0) (digits5 0) (Machine.boot regs)).trace ∧
      digits5 12 = [0,1,1,0,0] ∧ digits5 25 = [1,1,0,0,1] ∧ digits5 0 = [0,0,0,0,0]) ∧
    (BITS [] [] [0,1,1,0,0] [1,1,0,0,1] = 32 * 12 + 25 ∧ 32 * 12 + 25 = 409 ∧
      BITS [] [] [0,0,0,0,0] [0,0,0,0,0] = 0) ∧
    (lastWrite .MCR_FTRM (init_clock fuel mcu (Machine.boot regs)).machine.trace = some 409 ∧
      lastWrite .MCR_RLR (init_clock fuel mcu (Machine.boot regs)).machine.trace = some 0 ∧
      lastWrite .MCR_FTRM (init_clock_lc fuel mcu (Machine.boot regs)).machine.trace = some 0 ∧
      lastWrite .MCR_RLR (init_clock_lc fuel mcu (Machine.boot regs)).machine.trace
        = some 0) := by
  obtain ⟨X1, hE1, hX1⟩ := init_clock_tail fuel mcu regs
  obtain ⟨X2, hE2, hX2⟩ := init_clock_lc_tail fuel mcu regs
  have hb : ∀ c f, c < 32 → f < 32 → BITS [] [] (digits5 c) (digits5 f) = 32 * c + f := by
    intro c f hc hf
    simp only [BITS, digits5, List.nil_append, List.cons_append, List.foldl_cons,
      List.foldl_nil]
    omega
  refine ⟨?_, ⟨?_, ?_, by decide, by decide, by decide⟩, ⟨by decide, by decide, by decide⟩,
    ?_, ?_, ?_, ?_⟩
  · intro c f hc hf m
    refine ⟨hb c f hc hf, ?_, ?_, ?_, ?_⟩
    · simp [trim_sequence, hb c f hc hf]
    · simp [trim_sequence]
    · simp [trim_sequence_psr, hb c f hc hf]
    · simp [trim_sequence_psr]
  · rw [hE1, List.take_append_of_le_length (by decide)]; rfl
  · rw [hE2, List.take_append_of_le_length (by decide)]; rfl
  · rw [hE1, lastWrite_append_none _ _ (lastWrite_other _ _ (fun e he => by
      rcases hX1 e he with h | h <;> rw [h] <;> decide))]
    rfl
  · rw [hE1, lastWrite_append_none _ _ (lastWrite_other _ _ (fun e he => by
      rcases hX1 e he with h | h <;> rw [h] <;> decide))]
    rfl
  · rw [hE2, lastWrite_append_none _ _ (lastWrite_other _ _ (fun e he => by
      rcases hX2 e he with h | h <;> rw [h] <;> decide))]
    rfl
  · rw [hE2, lastWrite_append_none _ _ (lastWrite_other _ _ (fun e he => by
      rcases hX2 e he with h | h <;> rw [h] <;> decide))]
    rfl

/-- Witness for C3: coarse 31, fine 31 packs to `0b1111111111 = 1023`, and the
trim sequence run on a register file holding 7 everywhere leaves
`MCR_FTRM = 1023` and `MCR_RLR = 0`. -/
theorem trim_sequence_packs_and_relocks_witness :
    31 < 32 ∧ BITS [] [] (digits5 31) (digits5 31) = 1023 ∧
    (trim_sequence (digits5 31) (digits5 31) (Machine.boot fun _ => 7)).regs .MCR_FTRM
      = 1023 ∧
    (trim_sequence (digits5 31) (digits5 31) (Machine.boot fun _ => 7)).regs .MCR_RLR = 0 :=
  ⟨by decide,
   ((trim_sequence_packs_and_relocks 1 (constMcu 0) (fun _ => 7)).1 31 31 (by decide)
      (by decide) (Machine.boot fun _ => 7)).1,
   ((trim_sequence_packs_and_relocks 1 (constMcu 0) (fun _ => 7)).1 31 31 (by decide)
      (by decide) (Machine.boot fun _ => 7)).2.1,
   ((trim_sequence_packs_and_relocks 1 (constMcu 0) (fun _ => 7)).1 31 31 (by decide)
      (by decide) (Machine.boot fun _ => 7)).2.2.1⟩

/-- C6 as stated fails: on a hardware whose trim lock status always reads
locked, `init_clock` and `init_clock_lc` still run to their end, having
written the key once only and `MCR_FTRM` without any read of the lock. -/
theorem trim_unlock_retry_counterexample :
    lockedMcu.status .MCR_RLR 0 ≠ 0 ∧
    (init_clock 1 lockedMcu (Machine.boot fun _ => 0)).isReturned = true ∧
    ¬ UnlockRetried (init_clock 1 lockedMcu (Machine.boot fun _ => 0)).machine.trace ∧
    (init_clock_lc 3 lockedMcu (Machine.boot fun _ => 0)).isReturned = true ∧
    ¬ UnlockRetried (init_clock_lc 3 lockedMcu (Machine.boot fun _ => 0)).machine.trace := by
  refine ⟨by decide, by decide, ?_, by decide, ?_⟩
  · intro h
    have h1 := h.1
    revert h1
    decide
  · intro h
    have h1 := h.1
    revert h1
    decide

/-- C6 as amended: whatever the hardware, `init_clock` and `init_clock_lc`
write the key `0x1ACCE554` to `MCR_RLR` exactly once, as their first access,
and never read the lock status; `MCR_FTRM` is written after that single key
write (in `init_clock` after the write of `MCR_PSR`), then `MCR_RLR` is
written 0, and neither register is accessed again. -/
theorem trim_unlock_single_key_write (fuel : Nat) (mcu : Mcu) (regs : Reg → Nat) :
    ((init_clock fuel mcu (Machine.boot regs)).machine.trace.take 4 =
        [.wr .MCR_RLR 0x1ACCE554, .wr .MCR_PSR 0b01, .wr .MCR_FTRM 409, .wr .MCR_RLR 0] ∧
      (∀ e ∈ (init_clock fuel mcu (Machine.boot regs)).machine.trace.drop 4,
        e.reg ≠ .MCR_RLR ∧ e.reg ≠ .MCR_FTRM) ∧
      (init_clock fuel mcu (Machine.boot regs)).machine.trace.count
        (.wr .MCR_RLR 0x1ACCE554) = 1) ∧
    ((init_clock_lc fuel mcu (Machine.boot regs)).machine.trace.take 3 =
        [.wr .MCR_RLR 0x1ACCE554, .wr .MCR_FTRM 0, .wr .MCR_RLR 0] ∧
      (∀ e ∈ (init_clock_lc fuel mcu (Machine.boot regs)).machine.trace.drop 3,
        e.reg ≠ .MCR_RLR ∧ e.reg ≠ .MCR_FTRM) ∧
      (init_clock_lc fuel mcu (Machine.boot regs)).machine.trace.count
        (.wr .MCR_RLR 0x1ACCE554) = 1) := by
  obtain ⟨X1, hE1, hX1⟩ := init_clock_tail fuel mcu regs
  obtain ⟨X2, hE2, hX2⟩ := init_clock_lc_tail fuel mcu regs
  have hc : ∀ X : List Event, (∀ e ∈ X, e.reg = .SCM_STR ∨ e.reg = .SCM_CTL) →
      X.count (.wr .MCR_RLR 0x1ACCE554) = 0 := by
    intro X hX
    apply List.count_eq_zero_of_not_mem
    intro hm
    rcases hX _ hm with h | h <;> simp [Event.reg] at h
  refine ⟨⟨?_, ?_, ?_⟩, ?_, ?_, ?_⟩
  · rw [hE1, List.take_append_of_le_length (by decide)]; rfl
  · rw [hE1, List.drop_append_of_le_length (by decide)]
    intro e he
    rcases List.mem_append.1 he with hm | hm
    · have hd : ∀ x ∈ List.drop 4 pllSetupEvents, x.reg ≠ .MCR_RLR ∧ x.reg ≠ .MCR_FTRM := by
        decide
      exact hd e hm
    · rcases hX1 e hm with h | h <;> rw [h] <;> decide
  · rw [hE1, List.count_append, hc X1 hX1]; rfl
  · rw [hE2, List.take_append_of_le_length (by decide)]; rfl
  · rw [hE2, List.drop_append_of_le_length (by decide)]
    intro e he
    rcases List.mem_append.1 he with hm | hm
    · have hd : ∀ x ∈ List.drop 3 lcSetupEvents, x.reg ≠ .MCR_RLR ∧ x.reg ≠ .MCR_FTRM := by
        decide
      exact hd e hm
    · rcases hX2 e hm with h | h <;> rw [h] <;> decide
  · rw [hE2, List.count_append, hc X2 hX2]; rfl

/-- C7 as stated fails: on a hardware whose watchdog lock reads 0, `main`
writes `PDOR5` although nothing before that write touched `MCR_FTRM` or
`SCM_CTL`. -/
theorem main_clock_setup_counterexample :
    (∃ v, Event.wr .PDOR5 v ∈ (main 1 (constMcu 0) (Machine.boot fun _ => 0)).machine.trace) ∧
    ¬ ClockSetupPrecedesBlink (main 1 (constMcu 0) (Machine.boot fun _ => 0)).machine.trace := by
  have hE : (main 1 (constMcu 0) (Machine.boot fun _ => 0)).machine.trace =
      [.rd .WDG_LCK 0, .wr .WDG_CTL 0, .wr .DDR5 0xFF, .rd .PDOR5 0] ++
        .wr .PDOR5 0 :: [.rd .PDOR5 0, .wr .PDOR5 2] := by
    simp only [main, init, init_watchdog, init_watchdog_loop, main_loop, do_blink, delay_eq,
      Outcome.bind]
    decide
  refine ⟨⟨0, by rw [hE]; simp⟩, ?_⟩
  intro h
  obtain ⟨⟨a, ha⟩, _⟩ := h _ _ _ hE
  simp at ha

/-- C7 as amended: whatever the hardware and however long `main` runs, it
never accesses `MCR_FTRM` or `SCM_CTL` (it calls neither `init_clock` nor
`init_clock_lc`); every write to `PDOR5` is preceded by the watchdog
configuration write `WDG_CTL = 0` and by the direction write `DDR5 = 0xFF`;
`main` never returns; and once `WDG_LCK` has read 0 within the loop bound,
`PDOR5` is written. -/
theorem main_watchdog_precedes_blink (fuel : Nat) (mcu : Mcu) (regs : Reg → Nat) :
    (∀ e ∈ (main fuel mcu (Machine.boot regs)).machine.trace,
      e.reg ≠ .MCR_FTRM ∧ e.reg ≠ .SCM_CTL) ∧
    (∀ pre v post,
      (main fuel mcu (Machine.boot regs)).machine.trace = pre ++ .wr .PDOR5 v :: post →
        Event.wr .WDG_CTL 0 ∈ pre ∧ Event.wr .DDR5 0xFF ∈ pre) ∧
    (main fuel mcu (Machine.boot regs)).isReturned = false ∧
    (∀ k, k < fuel → mcu.status .WDG_LCK k = 0 →
      ∃ v, Event.wr .PDOR5 v ∈ (main fuel mcu (Machine.boot regs)).machine.trace) := by
  rcases main_shape fuel mcu regs with ⟨hE, hret, hall⟩ | ⟨k, T, hE, hreg, hex, hret, _, _, _⟩
  · refine ⟨?_, ?_, hret, ?_⟩
    · intro e he
      rw [hE] at he
      rw [unlockRounds_reg mcu fuel 0 e he]
      decide
    · intro pre v post h
      have hm : Event.wr .PDOR5 v ∈ unlockRounds mcu 0 fuel := by
        rw [← hE, h]; simp
      have := unlockRounds_reg mcu fuel 0 _ hm
      simp [Event.reg] at this
    · intro k hk hz
      exact absurd hz (hall k hk)
  · refine ⟨?_, ?_, hret, ?_⟩
    · intro e he
      rw [hE] at he
      rcases List.mem_append.1 he with h | h
      · rcases List.mem_append.1 h with h | h
        · rw [unlockRounds_reg mcu k 0 e h]; decide
        · simp only [List.mem_cons, List.mem_singleton, List.not_mem_nil, or_false] at h
          rcases h with h | h | h <;> rw [h] <;> decide
      · rw [hreg e h]; decide
    · intro pre v post h
      rw [hE] at h
      have hA : Event.wr .PDOR5 v ∉
          unlockRounds mcu 0 k ++ [.rd .WDG_LCK 0, .wr .WDG_CTL 0, .wr .DDR5 0xFF] := by
        intro hm
        rcases List.mem_append.1 hm with h1 | h1
        · have := unlockRounds_reg mcu k 0 _ h1
          simp [Event.reg] at this
        · simp at h1
      obtain ⟨c, hc, _⟩ := split_after _ T _ pre post hA h
      rw [hc]
      constructor <;> simp
    · intro _ _ _
      obtain ⟨v, hv⟩ := hex
      exact ⟨v, by rw [hE]; exact List.mem_append_right _ hv⟩

/-- Witness for C7 as amended: on a hardware whose status reads are all 0,
one turn of the blink loop writes `PDOR5`, after `WDG_CTL = 0` and
`DDR5 = 0xFF` and without any access to `MCR_FTRM`. -/
theorem main_watchdog_precedes_blink_witness :
    (constMcu 0).status .WDG_LCK 0 = 0 ∧
    (∃ v, Event.wr .PDOR5 v ∈ (main 1 (constMcu 0) (Machine.boot fun _ => 0)).machine.trace) ∧
    (∀ e ∈ (main 1 (constMcu 0) (Machine.boot fun _ => 0)).machine.trace,
      e.reg ≠ .MCR_FTRM ∧ e.reg ≠ .SCM_CTL) :=
  ⟨rfl,
   (main_watchdog_precedes_blink 1 (constMcu 0) (fun _ => 0)).2.2.2 0 (by decide) rfl,
   (main_watchdog_precedes_blink 1 (constMcu 0) (fun _ => 0)).1⟩

/-- C9: in every trace of `init_clock`, whatever the hardware:
(1) a write to `SCM_CTL` made while no read of `SCM_STR` has shown `PLRDY` set
writes `0b00010000`, i.e. source field `RCS = 0b000` with the PLL-enable bit 4
set; (2) a write to `SCM_CTL` with `RCS = 0b010` writes `0b01010000` and comes
after a read of `SCM_STR` that showed `PLRDY` set; (3) there is at most one
such write, and exactly one when `init_clock` returns. -/
theorem pll_select_after_ready (fuel : Nat) (mcu : Mcu) (regs : Reg → Nat) :
    (∀ pre v post,
      (init_clock fuel mcu (Machine.boot regs)).machine.trace = pre ++ .wr .SCM_CTL v :: post →
      (∀ s, Event.rd .SCM_STR s ∈ pre → s.testBit mcu.PLRDY = false) →
        v = 0b00010000 ∧ RCS v = 0b000 ∧ v.testBit 4 = true) ∧
    (∀ pre v post,
      (init_clock fuel mcu (Machine.boot regs)).machine.trace = pre ++ .wr .SCM_CTL v :: post →
      RCS v = 0b010 →
        v = 0b01010000 ∧ ∃ s, Event.rd .SCM_STR s ∈ pre ∧ s.testBit mcu.PLRDY = true) ∧
    (init_clock fuel mcu (Machine.boot regs)).machine.trace.count (.wr .SCM_CTL 0b01010000)
      ≤ 1 ∧
    ((init_clock fuel mcu (Machine.boot regs)).isReturned = true →
      (init_clock fuel mcu (Machine.boot regs)).machine.trace.count
        (.wr .SCM_CTL 0b01010000) = 1) := by
  have hready : ∀ p, Event.rd .SCM_STR (mcu.status .SCM_STR p) ∈
      pllSetupEvents ++ pllPolls mcu 0 (p + 1) := by
    intro p
    have := pllPolls_mem mcu (p + 1) 0 p (Nat.lt_succ_self p)
    rw [Nat.zero_add] at this
    exact List.mem_append_right _ this
  have hcp : ∀ n k, (pllPolls mcu n k).count (.wr .SCM_CTL 0b01010000) = 0 := by
    intro n k
    apply List.count_eq_zero_of_not_mem
    intro hm
    obtain ⟨s, hs⟩ := pllPolls_isRead mcu k n _ hm
    cases hs
  have hcs : ∀ c n k, (switchPolls mcu c n k).count (.wr .SCM_CTL 0b01010000) = 0 := by
    intro c n k
    apply List.count_eq_zero_of_not_mem
    intro hm
    obtain ⟨r, s, hs⟩ := switchPolls_isRead mcu c k n _ hm
    cases hs
  have hc0 : pllSetupEvents.count (.wr .SCM_CTL 0b01010000) = 0 := by decide
  have hcount : (init_clock fuel mcu (Machine.boot regs)).machine.trace.count
        (.wr .SCM_CTL 0b01010000) ≤ 1 ∧
      ((init_clock fuel mcu (Machine.boot regs)).isReturned = true →
        (init_clock fuel mcu (Machine.boot regs)).machine.trace.count
          (.wr .SCM_CTL 0b01010000) = 1) := by
    rcases init_clock_shape fuel mcu regs with ⟨n, hE, hret, _⟩ | ⟨p, k, hE, _, _⟩
    · rw [hE, List.count_append, hcp, hc0, hret]
      exact ⟨Nat.zero_le _, fun h => by cases h⟩
    · rw [hE, List.count_append, List.count_append, List.count_cons_self, hcp, hcs, hc0]
      exact ⟨Nat.le_refl _, fun _ => rfl⟩
  refine ⟨?_, ?_, hcount.1, hcount.2⟩
  · intro pre v post h hclear
    rcases init_clock_split_SCM_CTL fuel mcu regs pre post v h with hv | ⟨_, p, _, hpre, _, hset⟩
    · subst hv
      exact ⟨rfl, by decide, by decide⟩
    · have := hclear (mcu.status .SCM_STR p) (by rw [hpre]; exact hready p)
      rw [hset] at this
      cases this
  · intro pre v post h hrcs
    rcases init_clock_split_SCM_CTL fuel mcu regs pre post v h with hv | ⟨hv, p, _, hpre, _, hset⟩
    · subst hv
      have hne : RCS 0b00010000 ≠ 0b010 := by decide
      exact absurd hrcs hne
    · exact ⟨hv, mcu.status .SCM_STR p, by rw [hpre]; exact hready p, hset⟩

/-- Witness for C9: `SCM_STR` reads `0x00` twice and `0x50` afterwards; the
write `SCM_CTL = 0b00010000` comes before any read of `SCM_STR`, and the write
`SCM_CTL = 0b01010000` comes after a read showing `PLRDY` set. -/
theorem pll_select_after_ready_witness :
    (init_clock 3 (stepMcu 2 0 0x50) (Machine.boot fun _ => 0)).machine.trace =
      pllSetupEvents.take 12 ++ .wr .SCM_CTL 0b00010000 ::
        [.rd .SCM_STR 0, .rd .SCM_STR 0, .rd .SCM_STR 0x50, .wr .SCM_CTL 0b01010000,
         .rd .SCM_CTL 0b01010000, .rd .SCM_STR 0x50] ∧
    (init_clock 3 (stepMcu 2 0 0x50) (Machine.boot fun _ => 0)).machine.trace =
      (pllSetupEvents ++ [.rd .SCM_STR 0, .rd .SCM_STR 0, .rd .SCM_STR 0x50]) ++
        .wr .SCM_CTL 0b01010000 :: [.rd .SCM_CTL 0b01010000, .rd .SCM_STR 0x50] ∧
    RCS 0b00010000 = 0b000 ∧
    (∃ s, Event.rd .SCM_STR s ∈
        pllSetupEvents ++ [.rd .SCM_STR 0, .rd .SCM_STR 0, .rd .SCM_STR 0x50] ∧
      s.testBit (stepMcu 2 0 0x50).PLRDY = true) :=
  ⟨by decide, by decide,
   ((pll_select_after_ready 3 (stepMcu 2 0 0x50) (fun _ => 0)).1
      (pllSetupEvents.take 12) 0b00010000
      [.rd .SCM_STR 0, .rd .SCM_STR 0, .rd .SCM_STR 0x50, .wr .SCM_CTL 0b01010000,
       .rd .SCM_CTL 0b01010000, .rd .SCM_STR 0x50]
      (by decide) (fun s hs => by simp [pllSetupEvents] at hs)).2.1,
   ((pll_select_after_ready 3 (stepMcu 2 0 0x50) (fun _ => 0)).2.1
      (pllSetupEvents ++ [.rd .SCM_STR 0, .rd .SCM_STR 0, .rd .SCM_STR 0x50]) 0b01010000
      [.rd .SCM_CTL 0b01010000, .rd .SCM_STR 0x50] (by decide) (by decide)).2⟩

/-- C10: in every trace of `init_clock` and of `init_clock_lc`, whatever the
hardware: (1) the writes to the five prescaler registers are, in order,
`BSC_PSR = 0x00`, `APBC0_PSR = 0x00`, `APBC1_PSR = 0x80`, `APBC2_PSR = 0x80`,
`SWC_PSR = 0x80`, the same in both functions; (2) at any write to `SCM_CTL`
whose source field `RCS` is not `0b000`, all five have been written before
and no prescaler register is accessed after; (3) such a write is present in
every trace of `init_clock_lc`, and in every trace of `init_clock` that
returned. -/
theorem prescalers_before_clock_switch (fuel : Nat) (mcu : Mcu) (regs : Reg → Nat) :
    ((init_clock fuel mcu (Machine.boot regs)).machine.trace.filter
        (fun e => isPrescaler e.reg) = prescalerWrites ∧
      (init_clock_lc fuel mcu (Machine.boot regs)).machine.trace.filter
        (fun e => isPrescaler e.reg) = prescalerWrites) ∧
    (∀ pre v post,
      (init_clock fuel mcu (Machine.boot regs)).machine.trace = pre ++ .wr .SCM_CTL v :: post →
      RCS v ≠ 0b000 →
        (∀ e ∈ prescalerWrites, e ∈ pre) ∧ (∀ e ∈ post, isPrescaler e.reg = false)) ∧
    (∀ pre v post,
      (init_clock_lc fuel mcu (Machine.boot regs)).machine.trace =
        pre ++ .wr .SCM_CTL v :: post →
      RCS v ≠ 0b000 →
        (∀ e ∈ prescalerWrites, e ∈ pre) ∧ (∀ e ∈ post, isPrescaler e.reg = false)) ∧
    ((init_clock fuel mcu (Machine.boot regs)).isReturned = true →
      ∃ pre post, (init_clock fuel mcu (Machine.boot regs)).machine.trace =
        pre ++ .wr .SCM_CTL 0b01010000 :: post) ∧
    (∃ pre post, (init_clock_lc fuel mcu (Machine.boot regs)).machine.trace =
        pre ++ .wr .SCM_CTL 0b10000000 :: post) ∧
    RCS 0b01010000 ≠ 0b000 ∧ RCS 0b10000000 ≠ 0b000 := by
  have hfil : ∀ X : List Event, (∀ e ∈ X, e.reg = .SCM_STR ∨ e.reg = .SCM_CTL) →
      X.filter (fun e => isPrescaler e.reg) = [] := by
    intro X hX
    rw [List.filter_eq_nil_iff]
    intro e he
    rcases hX e he with h | h <;> rw [h] <;> decide
  have hpost : ∀ c n k, ∀ e ∈ switchPolls mcu c n k, isPrescaler e.reg = false := by
    intro c n k e he
    rcases switchPolls_reg mcu c k n e he with h | h <;> rw [h] <;> rfl
  refine ⟨⟨?_, ?_⟩, ?_, ?_, ?_, ?_, by decide, by decide⟩
  · obtain ⟨X, hE, hX⟩ := init_clock_tail fuel mcu regs
    rw [hE, List.filter_append, hfil X hX]
    decide
  · obtain ⟨X, hE, hX⟩ := init_clock_lc_tail fuel mcu regs
    rw [hE, List.filter_append, hfil X hX]
    decide
  · intro pre v post h hrcs
    rcases init_clock_split_SCM_CTL fuel mcu regs pre post v h with hv | ⟨_, p, k, hpre, hpo, _⟩
    · subst hv
      exact absurd (by decide) hrcs
    · refine ⟨?_, ?_⟩
      · intro e he
        rw [hpre]
        apply List.mem_append_left
        revert e
        decide
      · rw [hpo]
        exact hpost _ _ _
  · intro pre v post h _
    obtain ⟨_, hpre, k, hpo⟩ := init_clock_lc_split_SCM_CTL fuel mcu regs pre post v h
    refine ⟨?_, ?_⟩
    · rw [hpre]
      decide
    · rw [hpo]
      exact hpost _ _ _
  · intro hret
    rcases init_clock_shape fuel mcu regs with ⟨n, _, hr, _⟩ | ⟨p, k, hE, _, _⟩
    · rw [hr] at hret
      cases hret
    · exact ⟨_, _, hE⟩
  · obtain ⟨k, hE⟩ := init_clock_lc_shape fuel mcu regs
    refine ⟨lcSetupEvents.take 8, switchPolls mcu 0b10000000 0 k, ?_⟩
    rw [hE]
    rfl

/-- Witness for C10: on a hardware whose status always reads `0x80`,
`init_clock_lc` writes the five prescalers before `SCM_CTL = 0b10000000` and
only polls after it. -/
theorem prescalers_before_clock_switch_witness :
    (init_clock_lc 1 (constMcu 0x80) (Machine.boot fun _ => 0)).machine.trace =
      lcSetupEvents.take 8 ++ .wr .SCM_CTL 0b10000000 ::
        [.rd .SCM_CTL 0b10000000, .rd .SCM_STR 0x80] ∧
    RCS 0b10000000 ≠ 0b000 ∧
    (∀ e ∈ prescalerWrites, e ∈ lcSetupEvents.take 8) ∧
    (∀ e ∈ [Event.rd .SCM_CTL 0b10000000, Event.rd .SCM_STR 0x80],
      isPrescaler e.reg = false) :=
  ⟨by decide, by decide,
   ((prescalers_before_clock_switch 1 (constMcu 0x80) (fun _ => 0)).2.2.1
      (lcSetupEvents.take 8) 0b10000000 [.rd .SCM_CTL 0b10000000, .rd .SCM_STR 0x80]
      (by decide) (by decide)).1,
   ((prescalers_before_clock_switch 1 (constMcu 0x80) (fun _ => 0)).2.2.1
      (lcSetupEvents.take 8) 0b10000000 [.rd .SCM_CTL 0b10000000, .rd .SCM_STR 0x80]
      (by decide) (by decide)).2⟩

end Fm3
